import Mathlib

/-
Verification of the open-mem observation store and search layer.

The development shallowly embeds the TypeScript sources:
  * src/search/strategies/filter-only.ts (filter-only strategy, strategy types,
    and the ObservationRepository over SQLite),
  * the mode resolver (ModeResolverV2).

The SQLite database is modelled as lists of rows kept in rowid (insertion)
order; SQL statements are translated clause by clause.  The FTS5 full-text
index is external to the repository, so the bm25 match/rank of the general
search query is a parameter of the model; the column-restricted queries
issued by searchByConcept and searchByFile are modelled concretely from the
FTS5 phrase semantics.  Calls to randomUUID and Date.now are modelled by
explicit id / timestamp arguments.  JavaScript truthiness on optional
strings is modelled by the function optTruthy.
-/

namespace OpenMem

/-- JavaScript truthiness of an optional string: undefined, null and the
empty string are falsy. -/
def optTruthy : Option String → Bool
  | none => false
  | some s => !s.isEmpty

/-- ASCII lower-casing of one character, as done by LOWER() in SQLite and by
toLowerCase() in JavaScript on ASCII input. -/
def lowerChar (c : Char) : Char :=
  if 65 ≤ c.toNat ∧ c.toNat ≤ 90 then Char.ofNat (c.toNat + 32) else c

/-- Lower-cased character data of a string. -/
def lowerData (s : String) : List Char := s.data.map lowerChar

/-- Case-insensitive string equality, as in LOWER(a) = LOWER(b). -/
def eqCI (a b : String) : Bool := lowerData a = lowerData b

/-- Boolean test that the first character list starts the second. -/
def isPrefixOfCL : List Char → List Char → Bool
  | [], _ => true
  | _ :: _, [] => false
  | a :: as, b :: bs => a = b && isPrefixOfCL as bs

/-- Boolean test that the needle occurs contiguously inside the haystack. -/
def containsSub (needle : List Char) : List Char → Bool
  | [] => needle.isEmpty
  | h :: hs => isPrefixOfCL needle (h :: hs) || containsSub needle hs

/-- Case-insensitive substring containment: the semantics of the SQL clause
LOWER(hay) LIKE LOWER(%needle%) with %_\ escaped, and of the JavaScript test
hay.toLowerCase().includes(needle.toLowerCase()). -/
def likeContains (needle hay : String) : Bool :=
  containsSub (lowerData needle) (lowerData hay)

/-- Lexicographic strict order on strings, as used by SQLite TEXT comparison
and the JavaScript < operator on strings. -/
def strLt (a b : String) : Bool := decide (List.Lex (· < ·) a.data b.data)

/-- Deduplication keeping the first occurrence of each element, the behaviour
of Array.from(new Set(values)) in JavaScript. -/
def dedupFirst : List String → List String
  | [] => []
  | x :: xs => x :: (dedupFirst xs).filter (fun y => !(y = x : Bool))

-- ---------------------------------------------------------------------------
-- Data model: rows of the observations and sessions tables
-- ---------------------------------------------------------------------------

/-- One row of the observations table.  JSON-encoded TEXT columns (facts,
concepts, files_read, files_modified, embedding) are modelled by the decoded
values; mapRow is then the identity of the model. -/
structure Observation where
  id : String
  sessionId : String
  scope : String
  type : String
  title : String
  subtitle : String
  facts : List String
  narrative : String
  concepts : List String
  filesRead : List String
  filesModified : List String
  rawToolOutput : String
  toolName : String
  createdAt : String
  tokenCount : Int
  discoveryTokens : Int
  importance : Int
  revisionOf : Option String
  deletedAt : Option String
  supersededBy : Option String
  supersededAt : Option String
  embedding : Option (List Int)
deriving DecidableEq

/-- The columns of the sessions table that the observation repository reads:
the FTS search and the project listing join only on id and project_path. -/
structure Session where
  id : String
  projectPath : String
deriving DecidableEq

/-- The embedded database: row lists in rowid (insertion) order, plus the
vec0 virtual table observation_embeddings. -/
structure Db where
  observations : List Observation
  sessions : List Session
  obsEmbeddings : List (String × List Int)
deriving DecidableEq

/-- Membership test of the WHERE clause superseded_by IS NULL AND
deleted_at IS NULL: the row is active. -/
def Observation.isActive (o : Observation) : Bool :=
  o.supersededBy.isNone && o.deletedAt.isNone

/-- Result of the sessions join: some session row of the database carries the
id of the observation and the given project path. -/
def sessionJoinOk (db : Db) (projectPath : String) (o : Observation) : Bool :=
  db.sessions.any (fun s => s.id = o.sessionId && s.projectPath = projectPath)

-- ---------------------------------------------------------------------------
-- Search query and result types (src types.ts)
-- ---------------------------------------------------------------------------

/-- FTS5 search query parameters with optional filters. -/
structure SearchQuery where
  query : String
  sessionId : Option String := none
  type : Option String := none
  limit : Option Nat := none
  offset : Option Nat := none
  projectPath : Option String := none
  importanceMin : Option Int := none
  importanceMax : Option Int := none
  createdAfter : Option String := none
  createdBefore : Option String := none
  concepts : List String := []
  files : List String := []
deriving DecidableEq

/-- Explainability block attached to a search result. -/
structure SearchExplain where
  strategy : Option String := none
  matchedBy : List String := []
deriving DecidableEq

/-- A search result pairing an observation with its relevance rank. -/
structure SearchResult where
  observation : Observation
  rank : Int
  snippet : String
  source : Option String := none
  rankingSource : Option String := none
  explain : Option SearchExplain := none
deriving DecidableEq

end OpenMem

namespace OpenMem

-- ---------------------------------------------------------------------------
-- ObservationRepository: reads
-- ---------------------------------------------------------------------------

namespace ObservationRepository

/-- Get an observation by its unique ID; the WHERE clause keeps only the
active row. -/
def getById (db : Db) (id : String) : Option Observation :=
  db.observations.find? (fun o => o.id = id && o.isActive)

/-- Get an observation by ID regardless of superseded or tombstoned state. -/
def getByIdIncludingArchived (db : Db) (id : String) : Option Observation :=
  db.observations.find? (fun o => (o.id = id : Bool))

/-- Get the total observation count, optionally filtered by session; the
session filter is applied only when the argument is truthy. -/
def getCount (db : Db) (sessionId : Option String) : Nat :=
  match sessionId with
  | some sid =>
    if sid.isEmpty then db.observations.length
    else (db.observations.filter (fun o => (o.sessionId = sid : Bool))).length
  | none => db.observations.length

/-- Options of listByProject. -/
structure ListOptions where
  limit : Option Nat := none
  offset : Option Nat := none
  type : Option String := none
  state : Option String := none
  sessionId : Option String := none

/-- WHERE clause of listByProject for one row: sessions join on the project
path, truthy session and type filters, and the state clause whose default
branch keeps active rows only. -/
def listFilter (db : Db) (projectPath : String) (options : ListOptions) (o : Observation) : Bool :=
  sessionJoinOk db projectPath o
  && (match options.sessionId with
      | some sid => if sid.isEmpty then true else (o.sessionId = sid : Bool)
      | none => true)
  && (match options.type with
      | some t => if t.isEmpty then true else (o.type = t : Bool)
      | none => true)
  && (match options.state with
      | some "current" => o.isActive
      | some "superseded" => o.supersededBy.isSome && o.deletedAt.isNone
      | some "tombstoned" => o.deletedAt.isSome
      | _ => o.isActive)

/-- List observations for a project; ORDER BY created_at DESC with the stable
sort keeping the scan order among ties, then OFFSET and LIMIT with the
destructuring defaults 0 and 50. -/
def listByProject (db : Db) (projectPath : String) (options : ListOptions) : List Observation :=
  ((((db.observations.filter (listFilter db projectPath options)).insertionSort
      (fun a b => strLt a.createdAt b.createdAt = false)).drop
    (options.offset.getD 0)).take (options.limit.getD 50))

-- ---------------------------------------------------------------------------
-- ObservationRepository: FTS5 search
-- ---------------------------------------------------------------------------

/-- Conjunction of the optional WHERE filters of search: active rows, the
sessions join when the project path is truthy, truthy session and type
equality, importance range, creation date range, case-insensitive concept
membership, and case-insensitive LIKE containment over the file columns. -/
def searchFilter (db : Db) (q : SearchQuery) (o : Observation) : Bool :=
  o.isActive
  && (match q.projectPath with
      | some pp => if pp.isEmpty then true else sessionJoinOk db pp o
      | none => true)
  && (match q.sessionId with
      | some sid => if sid.isEmpty then true else (o.sessionId = sid : Bool)
      | none => true)
  && (match q.type with
      | some t => if t.isEmpty then true else (o.type = t : Bool)
      | none => true)
  && (match q.importanceMin with
      | some m => (m ≤ o.importance : Bool)
      | none => true)
  && (match q.importanceMax with
      | some m => (o.importance ≤ m : Bool)
      | none => true)
  && (match q.createdAfter with
      | some d => if d.isEmpty then true else !strLt o.createdAt d
      | none => true)
  && (match q.createdBefore with
      | some d => if d.isEmpty then true else !strLt d o.createdAt
      | none => true)
  && (if q.concepts.isEmpty then true
      else q.concepts.any (fun c => o.concepts.any (fun v => eqCI v c)))
  && (if q.files.isEmpty then true
      else q.files.any (fun f =>
        o.filesRead.any (likeContains f) || o.filesModified.any (likeContains f)))

/-- Rows of the FTS join surviving the WHERE clause, each paired with its
bm25 rank.  The external FTS5 index is the parameter fts: it yields the rank
of a row matched by the MATCH expression, and none for an unmatched row. -/
def ftsCandidates (db : Db) (fts : String → Observation → Option Int)
    (q : SearchQuery) : List (Observation × Int) :=
  (db.observations.filterMap (fun o => (fts q.query o).map (fun r => (o, r)))).filter
    (fun p => searchFilter db q p.1)

/-- ORDER BY rank: a stable sort on the rank, ties keeping the scan order. -/
def rankedCandidates (db : Db) (fts : String → Observation → Option Int)
    (q : SearchQuery) : List (Observation × Int) :=
  (ftsCandidates db fts q).insertionSort (fun a b => a.2 ≤ b.2)

/-- Search observations by FTS5 full-text search with optional filters:
match and filter, ORDER BY rank, then OFFSET (default 0) and LIMIT
(default 10), mapping each row to a result whose snippet is the title. -/
def search (db : Db) (fts : String → Observation → Option Int)
    (q : SearchQuery) : List SearchResult :=
  (((rankedCandidates db fts q).drop (q.offset.getD 0)).take (q.limit.getD 10)).map
    (fun p => { observation := p.1, rank := p.2, snippet := p.1.title })

/-- FTS5 phrase match of the column query concepts:"term", modelled as the
term coinciding case-insensitively with one stored concept. -/
def conceptFtsMatch (concept : String) (o : Observation) : Bool :=
  o.concepts.any (fun v => eqCI v concept)

/-- Search observations by concept tag.  All rows matching the same single
phrase get the same modelled bm25 rank, so ORDER BY rank keeps the scan
order; the sessions join applies when the project path is truthy. -/
def searchByConcept (db : Db) (concept : String) (limit : Nat)
    (projectPath : Option String) : List Observation :=
  (db.observations.filter (fun o =>
    conceptFtsMatch concept o && o.isActive
    && (match projectPath with
        | some pp => if pp.isEmpty then true else sessionJoinOk db pp o
        | none => true))).take limit

/-- FTS5 phrase match of files_read:"path" OR files_modified:"path",
modelled as case-insensitive containment in one stored path. -/
def fileFtsMatch (filePath : String) (o : Observation) : Bool :=
  o.filesRead.any (likeContains filePath) || o.filesModified.any (likeContains filePath)

/-- Search observations by file path, in the shape of searchByConcept. -/
def searchByFile (db : Db) (filePath : String) (limit : Nat)
    (projectPath : Option String) : List Observation :=
  (db.observations.filter (fun o =>
    fileFtsMatch filePath o && o.isActive
    && (match projectPath with
        | some pp => if pp.isEmpty then true else sessionJoinOk db pp o
        | none => true))).take limit

end ObservationRepository

end OpenMem

namespace OpenMem

namespace ObservationRepository

-- ---------------------------------------------------------------------------
-- ObservationRepository: writes
-- ---------------------------------------------------------------------------

/-- Input of create: every observation field except id, createdAt and the
lineage columns.  The scope is optional with default project. -/
structure ObservationBody where
  sessionId : String
  scope : Option String := none
  type : String
  title : String
  subtitle : String
  facts : List String
  narrative : String
  concepts : List String
  filesRead : List String
  filesModified : List String
  rawToolOutput : String
  toolName : String
  tokenCount : Int
  discoveryTokens : Int
  importance : Int

/-- Create a new observation.  The INSERT writes neither the superseded
columns nor the embedding column, so they start NULL; the generated UUID and
the current instant are the explicit arguments id and now. -/
def create (db : Db) (data : ObservationBody) (id now : String) : Db × Observation :=
  let row : Observation :=
    { id := id
      sessionId := data.sessionId
      scope := data.scope.getD "project"
      type := data.type
      title := data.title
      subtitle := data.subtitle
      facts := data.facts
      narrative := data.narrative
      concepts := data.concepts
      filesRead := data.filesRead
      filesModified := data.filesModified
      rawToolOutput := data.rawToolOutput
      toolName := data.toolName
      createdAt := now
      tokenCount := data.tokenCount
      discoveryTokens := data.discoveryTokens
      importance := data.importance
      revisionOf := none
      deletedAt := none
      supersededBy := none
      supersededAt := none
      embedding := none }
  ({ db with observations := db.observations ++ [row] }, row)

/-- Import an observation with a pre-existing ID.  The INSERT keeps
revision_of and deleted_at but lists no superseded column, so the imported
row always has NULL superseded_by and superseded_at. -/
def importObservation (db : Db) (data : Observation) : Db :=
  { db with observations := db.observations ++
      [{ data with supersededBy := none, supersededAt := none, embedding := none }] }

/-- Patch accepted by update: the nine revisable fields, each optional. -/
structure ObservationPatch where
  title : Option String := none
  narrative : Option String := none
  type : Option String := none
  concepts : Option (List String) := none
  importance : Option Int := none
  facts : Option (List String) := none
  subtitle : Option String := none
  filesRead : Option (List String) := none
  filesModified : Option (List String) := none

/-- Test that the patch object has no key, as Object.keys(data).length === 0
on a patch without present-but-undefined keys. -/
def ObservationPatch.isEmpty (p : ObservationPatch) : Bool :=
  p.title.isNone && p.narrative.isNone && p.type.isNone && p.concepts.isNone
  && p.importance.isNone && p.facts.isNone && p.subtitle.isNone
  && p.filesRead.isNone && p.filesModified.isNone

/-- UPDATE observations SET revision_of = revOf WHERE id = targetId. -/
def setRevisionOf (db : Db) (revOf targetId : String) : Db :=
  { db with observations := db.observations.map (fun o =>
      if o.id = targetId then { o with revisionOf := some revOf } else o) }

/-- Mark an observation as superseded by a newer one, stamping the instant
now. -/
def supersede (db : Db) (observationId newObservationId : String) (now : String) : Db :=
  { db with observations := db.observations.map (fun o =>
      if o.id = observationId then
        { o with supersededBy := some newObservationId, supersededAt := some now }
      else o) }

/-- Update selected fields by creating a successor revision.  Fails (returns
none, database untouched) when no active row carries the id; returns the
existing row unchanged on an empty patch; otherwise creates the revision row
with toolName mem-revise, points its revision_of at the predecessor,
supersedes the predecessor, and re-reads the revision. -/
def update (db : Db) (id : String) (data : ObservationPatch)
    (newId now : String) : Db × Option Observation :=
  match getById db id with
  | none => (db, none)
  | some existing =>
    if data.isEmpty then (db, some existing)
    else
      let step := create db
        { sessionId := existing.sessionId
          scope := some existing.scope
          type := data.type.getD existing.type
          title := data.title.getD existing.title
          subtitle := data.subtitle.getD existing.subtitle
          facts := data.facts.getD existing.facts
          narrative := data.narrative.getD existing.narrative
          concepts := data.concepts.getD existing.concepts
          filesRead := data.filesRead.getD existing.filesRead
          filesModified := data.filesModified.getD existing.filesModified
          rawToolOutput := existing.rawToolOutput
          toolName := "mem-revise"
          tokenCount := existing.tokenCount
          discoveryTokens := existing.discoveryTokens
          importance := data.importance.getD existing.importance }
        newId now
      let db1 := setRevisionOf step.1 id step.2.id
      let db2 := supersede db1 id step.2.id now
      (db2, getById db2 step.2.id)

/-- Remove vec0 embeddings and clear the JSON embedding column for the given
IDs; a no-op on an empty id list. -/
def deleteEmbeddingsForObservations (db : Db) (ids : List String) : Db :=
  if ids.isEmpty then db
  else
    { db with
      obsEmbeddings := db.obsEmbeddings.filter (fun e => !ids.contains e.1)
      observations := db.observations.map (fun o =>
        if ids.contains o.id then { o with embedding := none } else o) }

/-- Tombstone an observation by ID.  The guard is the bare row lookup
SELECT id FROM observations WHERE id, with no state condition; on a hit the
row gets deleted_at = now and its embedding entries are removed. -/
def delete (db : Db) (id : String) (now : String) : Db × Bool :=
  if db.observations.any (fun o => (o.id = id : Bool)) then
    let db1 : Db := { db with observations := db.observations.map (fun o =>
      if o.id = id then { o with deletedAt := some now } else o) }
    (deleteEmbeddingsForObservations db1 [id], true)
  else (db, false)

-- ---------------------------------------------------------------------------
-- ObservationRepository: lineage
-- ---------------------------------------------------------------------------

/-- Backward phase of getLineage: while the head of the chain has a truthy
revision_of, fetch that row; stop on a missing row or an id already seen,
else prepend it and record its id.  The fuel bounds the loop; the lemmas
below show that the row count of the database is always enough. -/
def backWalk (db : Db) : Nat → List Observation → List String → List Observation × List String
  | 0, chain, seen => (chain, seen)
  | fuel + 1, chain, seen =>
    match chain.head? with
    | none => (chain, seen)
    | some h =>
      match h.revisionOf with
      | none => (chain, seen)
      | some rid =>
        if rid.isEmpty then (chain, seen)
        else
          match getByIdIncludingArchived db rid with
          | none => (chain, seen)
          | some p =>
            if p.id ∈ seen then (chain, seen)
            else backWalk db fuel (p :: chain) (p.id :: seen)

/-- Forward phase of getLineage: while the last element of the chain has a
truthy superseded_by, fetch that row; stop on a missing row or an id already
seen, else append it and record its id. -/
def forWalk (db : Db) : Nat → List Observation → List String → List Observation × List String
  | 0, chain, seen => (chain, seen)
  | fuel + 1, chain, seen =>
    match chain.getLast? with
    | none => (chain, seen)
    | some t =>
      match t.supersededBy with
      | none => (chain, seen)
      | some nid =>
        if nid.isEmpty then (chain, seen)
        else
          match getByIdIncludingArchived db nid with
          | none => (chain, seen)
          | some nx =>
            if nx.id ∈ seen then (chain, seen)
            else forWalk db fuel (chain ++ [nx]) (nx.id :: seen)

/-- Lineage traversal at an explicit loop bound. -/
def getLineageFuel (db : Db) (id : String) (fuel : Nat) : List Observation :=
  match getByIdIncludingArchived db id with
  | none => []
  | some anchor =>
    let step := backWalk db fuel [anchor] [anchor.id]
    (forWalk db fuel step.1 step.2).1

/-- Return the full revision and tombstone lineage from the oldest known
revision to the newest.  Each loop iteration adds one fresh id of the table
to the seen set, so the row count of the database bounds both loops; the
fuel lemmas below make that explicit. -/
def getLineage (db : Db) (id : String) : List Observation :=
  getLineageFuel db id db.observations.length

end ObservationRepository

end OpenMem

namespace OpenMem

-- ---------------------------------------------------------------------------
-- Filter-only search strategy
-- ---------------------------------------------------------------------------

/-- Options of a search strategy; the project path is mandatory here. -/
structure StrategyOptions where
  type : Option String := none
  file : Option String := none
  concept : Option String := none
  limit : Option Nat := none
  projectPath : String
  importanceMin : Option Int := none
  importanceMax : Option Int := none
  createdAfter : Option String := none
  createdBefore : Option String := none
  concepts : List String := []
  files : List String := []

/-- Dependencies of a strategy: the three repository entry points it calls.
The embedding model and the vector capability flag of StrategyDeps are
unused by the filter-only strategy and omitted. -/
structure StrategyDeps where
  searchByConcept : String → Nat → String → List Observation
  searchByFile : String → Nat → String → List Observation
  search : SearchQuery → List SearchResult

/-- Concept terms of the options: the truthy singular field followed by the
plural list, deduplicated keeping first occurrences. -/
def conceptTerms (options : StrategyOptions) : List String :=
  dedupFirst
    ((match options.concept with
      | some c => if c.isEmpty then [] else [c]
      | none => []) ++ options.concepts)

/-- File terms of the options, in the shape of conceptTerms. -/
def fileTerms (options : StrategyOptions) : List String :=
  dedupFirst
    ((match options.file with
      | some f => if f.isEmpty then [] else [f]
      | none => []) ++ options.files)

/-- Case-insensitive membership of the term among the concepts. -/
def includesConcept (obsConcepts : List String) (term : String) : Bool :=
  obsConcepts.any (fun concept => eqCI concept term)

/-- Case-insensitive containment of the term in one of the files. -/
def includesFilePath (obsFiles : List String) (term : String) : Bool :=
  obsFiles.any (fun file => likeContains term file)

/-- Predicate of applyAdditionalFilters on one result: the conjunction of the
truthy type filter, the importance range, the date range, and the disjunctive
concept and file term filters when terms are present. -/
def passesAdditionalFilters (options : StrategyOptions) (result : SearchResult) : Bool :=
  let obs := result.observation
  (match options.type with
   | some t => if t.isEmpty then true else (obs.type = t : Bool)
   | none => true)
  && (match options.importanceMin with
      | some m => (m ≤ obs.importance : Bool)
      | none => true)
  && (match options.importanceMax with
      | some m => (obs.importance ≤ m : Bool)
      | none => true)
  && (match options.createdAfter with
      | some d => if d.isEmpty then true else !strLt obs.createdAt d
      | none => true)
  && (match options.createdBefore with
      | some d => if d.isEmpty then true else !strLt d obs.createdAt
      | none => true)
  && (if (conceptTerms options).isEmpty then true
      else (conceptTerms options).any (includesConcept obs.concepts))
  && (if (fileTerms options).isEmpty then true
      else (fileTerms options).any (includesFilePath (obs.filesRead ++ obs.filesModified)))

/-- Re-application of every provided filter as a conjunction. -/
def applyAdditionalFilters (results : List SearchResult) (options : StrategyOptions) :
    List SearchResult :=
  results.filter (passesAdditionalFilters options)

/-- Loop of mergeByObservationId: skip items whose observation id was already
seen, push the others, and stop right after the deduplicated list reaches
the limit. -/
def mergeByObservationIdAux (limit : Nat) :
    List SearchResult → List String → Nat → List SearchResult
  | [], _, _ => []
  | item :: rest, seen, count =>
    if item.observation.id ∈ seen then mergeByObservationIdAux limit rest seen count
    else if limit ≤ count + 1 then [item]
    else item :: mergeByObservationIdAux limit rest (item.observation.id :: seen) (count + 1)

/-- Deduplicate results by observation id, keeping first occurrences, and cut
at the limit. -/
def mergeByObservationId (items : List SearchResult) (limit : Nat) : List SearchResult :=
  mergeByObservationIdAux limit items [] 0

/-- Search result built for one observation gathered by concept match. -/
def conceptGatherResult (obs : Observation) : SearchResult :=
  { observation := obs
    rank := 0
    snippet := obs.title
    rankingSource := some "graph"
    explain := some { strategy := some "filter-only", matchedBy := ["concept-filter"] } }

/-- Search result built for one observation gathered by file match. -/
def fileGatherResult (obs : Observation) : SearchResult :=
  { observation := obs
    rank := 0
    snippet := obs.title
    rankingSource := some "graph"
    explain := some { strategy := some "filter-only", matchedBy := ["file-filter"] } }

/-- The filter-only strategy: gather by concept terms when any are present,
else by file terms when any are present, else run the general FTS search;
the first two branches deduplicate by observation id, re-apply the filters,
and truncate to the limit. -/
def executeFilterOnlyStrategy (deps : StrategyDeps) (query : String)
    (options : StrategyOptions) (limit : Nat) : List SearchResult :=
  let cts := conceptTerms options
  if !cts.isEmpty then
    let gathered := cts.flatMap (fun concept => deps.searchByConcept concept limit options.projectPath)
    let candidateResults := mergeByObservationId (gathered.map conceptGatherResult) limit
    (applyAdditionalFilters candidateResults options).take limit
  else
    let fts := fileTerms options
    if !fts.isEmpty then
      let gathered := fts.flatMap (fun file => deps.searchByFile file limit options.projectPath)
      let candidateResults := mergeByObservationId (gathered.map fileGatherResult) limit
      (applyAdditionalFilters candidateResults options).take limit
    else
      deps.search
        { query := query
          type := options.type
          limit := some limit
          projectPath := some options.projectPath
          importanceMin := options.importanceMin
          importanceMax := options.importanceMax
          createdAfter := options.createdAfter
          createdBefore := options.createdBefore
          concepts := options.concepts
          files := options.files }

/-- Strategy dependencies backed by the observation repository over a given
database and FTS index. -/
def repoDeps (db : Db) (fts : String → Observation → Option Int) : StrategyDeps :=
  { searchByConcept := fun concept limit pp =>
      ObservationRepository.searchByConcept db concept limit (some pp)
    searchByFile := fun filePath limit pp =>
      ObservationRepository.searchByFile db filePath limit (some pp)
    search := fun q => ObservationRepository.search db fts q }

end OpenMem

namespace OpenMem

-- ---------------------------------------------------------------------------
-- Mode resolver (ModeResolverV2)
-- ---------------------------------------------------------------------------

/-- Raw mode definition parsed from a mode JSON file; the extends field is
named extendsId because extends is reserved in Lean. -/
structure ModeConfigSource where
  id : String
  extendsId : Option String := none
  locale : Option String := none
  name : Option String := none
  description : Option String := none
  observationTypes : Option (List String) := none
  conceptVocabulary : Option (List String) := none
  entityTypes : Option (List String) := none
  relationshipTypes : Option (List String) := none
  promptOverrides : Option (List (String × String)) := none
deriving DecidableEq

/-- Fully resolved workflow mode configuration. -/
structure ModeConfig where
  id : String
  extendsId : Option String := none
  locale : Option String := none
  name : String
  description : String
  observationTypes : List String
  conceptVocabulary : List String
  entityTypes : List String
  relationshipTypes : List String
  promptOverrides : Option (List (String × String)) := none
deriving DecidableEq

/-- The built-in default mode, id code. -/
def DEFAULT_MODE : ModeConfig :=
  { id := "code"
    name := "Code"
    description := "Default coding workflow mode"
    observationTypes := ["decision", "bugfix", "feature", "refactor", "discovery", "change"]
    conceptVocabulary :=
      ["how-it-works", "why-it-exists", "what-changed", "problem-solution",
       "gotcha", "pattern", "trade-off"]
    entityTypes :=
      ["technology", "library", "pattern", "concept", "file", "person", "project", "other"]
    relationshipTypes :=
      ["uses", "depends_on", "implements", "extends", "related_to", "replaces", "configures"] }

/-- Deep copy of a mode; copying immutable values is the identity in the
model. -/
def cloneMode (mode : ModeConfig) : ModeConfig := mode

/-- Test that a root mode carries every required field. -/
def isCompleteRootMode (mode : ModeConfigSource) : Bool :=
  mode.name.isSome && mode.description.isSome && mode.observationTypes.isSome
  && mode.conceptVocabulary.isSome && mode.entityTypes.isSome
  && mode.relationshipTypes.isSome

/-- Merge of the prompt override maps: keys of the override shadow keys of
the base, as a JavaScript object spread does. -/
def mergeOverrides (base override : List (String × String)) : List (String × String) :=
  base.filter (fun p => !override.any (fun q => q.1 = p.1)) ++ override

/-- Merge an override source onto a resolved base: object spread followed by
the explicit per-field defaults of the source. -/
def mergeMode (base : ModeConfig) (override : ModeConfigSource) : ModeConfig :=
  { id := override.id
    extendsId := override.extendsId <|> base.extendsId
    locale := override.locale <|> base.locale
    name := override.name.getD base.name
    description := override.description.getD base.description
    observationTypes := override.observationTypes.getD base.observationTypes
    conceptVocabulary := override.conceptVocabulary.getD base.conceptVocabulary
    entityTypes := override.entityTypes.getD base.entityTypes
    relationshipTypes := override.relationshipTypes.getD base.relationshipTypes
    promptOverrides :=
      some (mergeOverrides (base.promptOverrides.getD []) (override.promptOverrides.getD [])) }

/-- Lookup of the raw mode map; loadAllRaw keys every entry by its own id
field, so the map is modelled as the list of sources with lookup by id. -/
def modeGet (modes : List ModeConfigSource) (id : String) : Option ModeConfigSource :=
  modes.find? (fun m => (m.id = id : Bool))

/-- Branch of the resolver for a mode without a truthy extends field. -/
def resolveRoot (mode : ModeConfigSource) : ModeConfig × Bool :=
  if isCompleteRootMode mode then (mergeMode (cloneMode DEFAULT_MODE) mode, false)
  else (cloneMode DEFAULT_MODE, false)

/-- Inner resolver, returning the resolved mode and the cycleDetected flag.
The Boolean mirrors the captured mutable flag of the source: it is set when
an id is revisited and propagates outward unchanged.  The fuel bounds the
recursion; resolveInner_fuel below shows that the fuel used by resolveById
is never exhausted, so the value of the base case is immaterial. -/
def resolveInner (modes : List ModeConfigSource) :
    Nat → String → List String → ModeConfig × Bool
  | 0, _, _ => (cloneMode DEFAULT_MODE, true)
  | fuel + 1, modeId, seen =>
    if modeId ∈ seen then (cloneMode DEFAULT_MODE, true)
    else
      match modeGet modes modeId with
      | none => (cloneMode DEFAULT_MODE, false)
      | some mode =>
        match mode.extendsId with
        | none => resolveRoot mode
        | some e =>
          if e.isEmpty then resolveRoot mode
          else
            let step := resolveInner modes fuel e (modeId :: seen)
            if step.2 then (cloneMode DEFAULT_MODE, true)
            else (mergeMode step.1 mode, false)

/-- Resolver entry point at an explicit recursion bound. -/
def resolveByIdFuel (modes : List ModeConfigSource) (id : String) (fuel : Nat) : ModeConfig :=
  let step := resolveInner modes fuel id []
  if step.2 then cloneMode DEFAULT_MODE else cloneMode step.1

/-- Resolve a mode id against the raw mode map.  Every recursive call pushes
a fresh id of the map onto the seen list, so the recursion depth never
exceeds the size of the map plus one; the fuel lemmas make that explicit. -/
def resolveById (modes : List ModeConfigSource) (id : String) : ModeConfig :=
  resolveByIdFuel modes id (modes.length + 1)

/-- One step along the extends chain: from an id to the truthy extends field
of the mode stored under it, if any. -/
def extStep (modes : List ModeConfigSource) (i : String) : Option String :=
  match modeGet modes i with
  | none => none
  | some m =>
    match m.extendsId with
    | none => none
    | some e => if e.isEmpty then none else some e

/-- Position t of the extends chain starting at the requested id. -/
def extChainAt (modes : List ModeConfigSource) (id : String) : Nat → Option String
  | 0 => some id
  | t + 1 => (extChainAt modes id t).bind (extStep modes)

end OpenMem

namespace OpenMem

-- ---------------------------------------------------------------------------
-- Statement-level predicates and loop measures
-- ---------------------------------------------------------------------------

/-- Adjacency demanded of a lineage chain: the later row points back at the
earlier one and the earlier row points forward at the later one. -/
def lineageAdj (a b : Observation) : Prop :=
  b.revisionOf = some a.id ∧ a.supersededBy = some b.id

instance (a b : Observation) : Decidable (lineageAdj a b) :=
  inferInstanceAs (Decidable (b.revisionOf = some a.id ∧ a.supersededBy = some b.id))

/-- Coherence of the lineage pointers of a database: forward and backward
pointers between stored rows agree. -/
def lineageCoherent (db : Db) : Prop :=
  ∀ o ∈ db.observations, ∀ p ∈ db.observations,
    (o.supersededBy = some p.id → p.revisionOf = some o.id) ∧
    (p.revisionOf = some o.id → o.supersededBy = some p.id)

instance (db : Db) : Decidable (lineageCoherent db) :=
  inferInstanceAs (Decidable (∀ o ∈ db.observations, ∀ p ∈ db.observations,
    (o.supersededBy = some p.id → p.revisionOf = some o.id) ∧
    (p.revisionOf = some o.id → o.supersededBy = some p.id)))

/-- Count of distinct observation ids not yet in the seen list: the measure
that each lineage walk iteration strictly decreases. -/
def seenMeasure (db : Db) (seen : List String) : Nat :=
  (((db.observations.map (fun o => o.id)).dedup).filter (fun i => decide (i ∉ seen))).length

/-- Count of distinct mode ids not yet in the seen list: the measure that
each resolver recursion strictly decreases. -/
def modeSeenMeasure (modes : List ModeConfigSource) (seen : List String) : Nat :=
  (((modes.map (fun m => m.id)).dedup).filter (fun i => decide (i ∉ seen))).length

-- ---------------------------------------------------------------------------
-- Concrete fixtures for witnesses and counterexamples
-- ---------------------------------------------------------------------------

/-- FTS index in which every row matches every query at bm25 rank 0, as for
pairwise identical documents. -/
def fts0 : String → Observation → Option Int := fun _ _ => some 0

/-- Template observation row for fixtures. -/
def obsBase : Observation :=
  { id := "o0"
    sessionId := "s0"
    scope := "project"
    type := "discovery"
    title := "title0"
    subtitle := ""
    facts := []
    narrative := ""
    concepts := []
    filesRead := []
    filesModified := []
    rawToolOutput := ""
    toolName := "tool"
    createdAt := "2024-01-01T00:00:00.000Z"
    tokenCount := 1
    discoveryTokens := 2
    importance := 3
    revisionOf := none
    deletedAt := none
    supersededBy := none
    supersededAt := none
    embedding := none }

/-- Fixture session of project /p. -/
def exSession1 : Session := { id := "s1", projectPath := "/p" }

/-- Fixture timestamp used for write operations. -/
def ts1 : String := "2024-02-02T00:00:00.000Z"

/-- Active observation in session s1. -/
def exObs1 : Observation :=
  { obsBase with id := "o1", sessionId := "s1", title := "Alpha", concepts := ["authentication"] }

/-- Single-observation database of project /p. -/
def exDb1 : Db := { observations := [exObs1], sessions := [exSession1], obsEmbeddings := [] }

/-- Project-scoped query over exDb1. -/
def exQuery1 : SearchQuery := { query := "alpha", projectPath := some "/p" }

/-- Observation whose toolName is bash, the update fixture. -/
def exObs2 : Observation :=
  { obsBase with id := "o1", sessionId := "s1", toolName := "bash", title := "t1" }

/-- Database of the update fixture. -/
def exDb2 : Db := { observations := [exObs2], sessions := [exSession1], obsEmbeddings := [] }

/-- Patch that revises the title only. -/
def exPatch2 : ObservationRepository.ObservationPatch := { title := some "t2" }

/-- Oldest lineage fixture row. -/
def exObs4a : Observation := { obsBase with id := "a", sessionId := "s1" }

/-- Imported row pointing its revision_of at a without the matching forward
pointer, as importObservation always stores NULL superseded_by. -/
def exObs4b : Observation := { obsBase with id := "b", sessionId := "s1", revisionOf := some "a" }

/-- Database populated through importObservation only. -/
def exDb4 : Db :=
  ObservationRepository.importObservation
    (ObservationRepository.importObservation
      { observations := [], sessions := [exSession1], obsEmbeddings := [] } exObs4a)
    exObs4b

/-- Superseded (inactive) row, the delete fixture. -/
def exObs5 : Observation := { obsBase with id := "s", sessionId := "s1", supersededBy := some "x" }

/-- Database of the delete fixture, with a stale embedding entry. -/
def exDb5 : Db :=
  { observations := [exObs5], sessions := [exSession1], obsEmbeddings := [("s", [1, 2])] }

/-- Observation tagged authentication. -/
def obsAuth : Observation :=
  { obsBase with id := "oa", sessionId := "s1", title := "Auth obs", concepts := ["authentication"] }

/-- Observation tagged hooks. -/
def obsHooks : Observation :=
  { obsBase with id := "oh", sessionId := "s1", title := "Hooks obs", concepts := ["hooks"] }

/-- Database of the filter-only scenario. -/
def exDb6 : Db :=
  { observations := [obsAuth, obsHooks], sessions := [exSession1], obsEmbeddings := [] }

/-- Options of the filter-only scenario: one singular and one plural concept
term. -/
def opts6 : StrategyOptions :=
  { projectPath := "/p", concept := some "authentication", concepts := ["hooks"] }

/-- Mode a extending b. -/
def modeA : ModeConfigSource := { id := "a", extendsId := some "b" }

/-- Mode b extending a, closing the cycle. -/
def modeB : ModeConfigSource := { id := "b", extendsId := some "a" }

/-- Cyclic raw mode map. -/
def exModesCyc : List ModeConfigSource := [modeA, modeB]

/-- Earlier-inserted row of low importance. -/
def exObs8a : Observation := { obsBase with id := "a", importance := 1 }

/-- Later-inserted row of high importance. -/
def exObs8b : Observation := { obsBase with id := "b", importance := 5 }

/-- Two-row database whose rows tie on rank under fts0. -/
def exDb8 : Db :=
  { observations := [exObs8a, exObs8b], sessions := [exSession1], obsEmbeddings := [] }

/-- Unscoped query over exDb8. -/
def exQ8 : SearchQuery := { query := "title0" }

-- ---------------------------------------------------------------------------
-- Statement-level abbreviations for the update theorem
-- ---------------------------------------------------------------------------

/-- Row transform performed by supersede on the predecessor row. -/
def supersedeMark (id newId now : String) : Observation -> Observation := fun o =>
  if o.id = id then { o with supersededBy := some newId, supersededAt := some now } else o

/-- Create body assembled by update from the existing row and the patch. -/
def updateBody (A : Observation) (patch : ObservationRepository.ObservationPatch) :
    ObservationRepository.ObservationBody :=
  { sessionId := A.sessionId
    scope := some A.scope
    type := patch.type.getD A.type
    title := patch.title.getD A.title
    subtitle := patch.subtitle.getD A.subtitle
    facts := patch.facts.getD A.facts
    narrative := patch.narrative.getD A.narrative
    concepts := patch.concepts.getD A.concepts
    filesRead := patch.filesRead.getD A.filesRead
    filesModified := patch.filesModified.getD A.filesModified
    rawToolOutput := A.rawToolOutput
    toolName := "mem-revise"
    tokenCount := A.tokenCount
    discoveryTokens := A.discoveryTokens
    importance := patch.importance.getD A.importance }

/-- The successor row produced by a succeeding update, after its revision_of
was pointed at the predecessor. -/
def revisionRow (id : String) (A : Observation)
    (patch : ObservationRepository.ObservationPatch) (newId now : String) : Observation :=
  { id := newId
    sessionId := A.sessionId
    scope := A.scope
    type := patch.type.getD A.type
    title := patch.title.getD A.title
    subtitle := patch.subtitle.getD A.subtitle
    facts := patch.facts.getD A.facts
    narrative := patch.narrative.getD A.narrative
    concepts := patch.concepts.getD A.concepts
    filesRead := patch.filesRead.getD A.filesRead
    filesModified := patch.filesModified.getD A.filesModified
    rawToolOutput := A.rawToolOutput
    toolName := "mem-revise"
    createdAt := now
    tokenCount := A.tokenCount
    discoveryTokens := A.discoveryTokens
    importance := patch.importance.getD A.importance
    revisionOf := some id
    deletedAt := none
    supersededBy := none
    supersededAt := none
    embedding := none }

end OpenMem

namespace OpenMem

-- ---------------------------------------------------------------------------
-- Helper lemmas about search and listing
-- ---------------------------------------------------------------------------

lemma mem_of_take_drop {α : Type} {l : List α} {n m : Nat} {a : α}
    (h : a ∈ (l.drop n).take m) : a ∈ l :=
  List.mem_of_mem_drop (List.mem_of_mem_take h)

lemma mem_search_elim {db : Db} {fts : String → Observation → Option Int}
    {q : SearchQuery} {r : SearchResult}
    (h : r ∈ ObservationRepository.search db fts q) :
    ∃ p ∈ ObservationRepository.ftsCandidates db fts q,
      r.observation = p.1 ∧ r.rank = p.2 ∧ r.snippet = p.1.title := by
  unfold ObservationRepository.search at h
  obtain ⟨p, hp, hr⟩ := List.mem_map.1 h
  have h1 : p ∈ ObservationRepository.rankedCandidates db fts q := mem_of_take_drop hp
  have h2 : p ∈ ObservationRepository.ftsCandidates db fts q := by
    unfold ObservationRepository.rankedCandidates at h1
    exact (List.perm_insertionSort _ _).mem_iff.1 h1
  exact ⟨p, h2, by rw [← hr], by rw [← hr], by rw [← hr]⟩

lemma mem_ftsCandidates_filter {db : Db} {fts : String → Observation → Option Int}
    {q : SearchQuery} {p : Observation × Int}
    (h : p ∈ ObservationRepository.ftsCandidates db fts q) :
    ObservationRepository.searchFilter db q p.1 = true :=
  (List.mem_filter.1 h).2

lemma searchFilter_active {db : Db} {q : SearchQuery} {o : Observation}
    (h : ObservationRepository.searchFilter db q o = true) :
    o.supersededBy = none ∧ o.deletedAt = none := by
  unfold ObservationRepository.searchFilter at h
  simp only [Bool.and_eq_true] at h
  have h1 := h.1.1.1.1.1.1.1.1.1
  simpa [Observation.isActive, Bool.and_eq_true, Option.isNone_iff_eq_none] using h1

lemma searchFilter_project {db : Db} {q : SearchQuery} {o : Observation} {P : String}
    (hP : q.projectPath = some P) (hne : P ≠ "")
    (h : ObservationRepository.searchFilter db q o = true) :
    ∃ s ∈ db.sessions, s.id = o.sessionId ∧ s.projectPath = P := by
  unfold ObservationRepository.searchFilter at h
  simp only [Bool.and_eq_true] at h
  have h2 := h.1.1.1.1.1.1.1.1.2
  rw [hP] at h2
  have hPe : P.isEmpty = false := by
    rcases hb : P.isEmpty with _ | _
    · rfl
    · exact absurd ((String.isEmpty_iff P).1 hb) hne
  simp only [hPe, if_false, Bool.if_false_left] at h2
  have h3 : sessionJoinOk db P o = true := by simpa using h2
  unfold sessionJoinOk at h3
  simp only [List.any_eq_true, Bool.and_eq_true, decide_eq_true_eq] at h3
  obtain ⟨s, hs, hid, hpp⟩ := h3
  exact ⟨s, hs, hid, hpp⟩

lemma mem_listByProject_elim {db : Db} {projectPath : String}
    {options : ObservationRepository.ListOptions} {o : Observation}
    (h : o ∈ ObservationRepository.listByProject db projectPath options) :
    ObservationRepository.listFilter db projectPath options o = true := by
  unfold ObservationRepository.listByProject at h
  have h1 := mem_of_take_drop h
  have h2 := (List.perm_insertionSort _ _).mem_iff.1 h1
  exact (List.mem_filter.1 h2).2

lemma listFilter_default_active {db : Db} {projectPath : String}
    {options : ObservationRepository.ListOptions} {o : Observation}
    (hstate : options.state = none ∨ options.state = some "current")
    (h : ObservationRepository.listFilter db projectPath options o = true) :
    o.supersededBy = none ∧ o.deletedAt = none := by
  unfold ObservationRepository.listFilter at h
  simp only [Bool.and_eq_true] at h
  have h4 := h.2
  rcases hstate with hs | hs <;> rw [hs] at h4 <;>
    simpa [Observation.isActive, Bool.and_eq_true, Option.isNone_iff_eq_none] using h4

/-- C3: every default-state retrieval (get by id, search, searchByConcept,
searchByFile, and listByProject with no state option or state current)
returns only active observations: rows whose supersededBy is null and whose
deletedAt is null. -/
theorem claim_C3_default_retrieval_is_active
    (db : Db) (fts : String → Observation → Option Int) (q : SearchQuery)
    (id concept filePath : String) (limit : Nat) (pp : Option String)
    (projectPath : String) (options : ObservationRepository.ListOptions) :
    (∀ o, ObservationRepository.getById db id = some o →
      o.supersededBy = none ∧ o.deletedAt = none)
  ∧ (∀ r ∈ ObservationRepository.search db fts q,
      r.observation.supersededBy = none ∧ r.observation.deletedAt = none)
  ∧ (∀ o ∈ ObservationRepository.searchByConcept db concept limit pp,
      o.supersededBy = none ∧ o.deletedAt = none)
  ∧ (∀ o ∈ ObservationRepository.searchByFile db filePath limit pp,
      o.supersededBy = none ∧ o.deletedAt = none)
  ∧ ((options.state = none ∨ options.state = some "current") →
      ∀ o ∈ ObservationRepository.listByProject db projectPath options,
        o.supersededBy = none ∧ o.deletedAt = none) := by
  refine ⟨?_, ?_, ?_, ?_, ?_⟩
  · intro o h
    have hp := List.find?_some h
    simp only [Bool.and_eq_true] at hp
    simpa [Observation.isActive, Bool.and_eq_true, Option.isNone_iff_eq_none] using hp.2
  · intro r h
    obtain ⟨p, hp, hobs, _, _⟩ := mem_search_elim h
    rw [hobs]
    exact searchFilter_active (mem_ftsCandidates_filter hp)
  · intro o h
    unfold ObservationRepository.searchByConcept at h
    have h1 := (List.mem_filter.1 (List.mem_of_mem_take h)).2
    simp only [Bool.and_eq_true] at h1
    simpa [Observation.isActive, Bool.and_eq_true, Option.isNone_iff_eq_none] using h1.1.2
  · intro o h
    unfold ObservationRepository.searchByFile at h
    have h1 := (List.mem_filter.1 (List.mem_of_mem_take h)).2
    simp only [Bool.and_eq_true] at h1
    simpa [Observation.isActive, Bool.and_eq_true, Option.isNone_iff_eq_none] using h1.1.2
  · intro hstate o h
    exact listFilter_default_active hstate (mem_listByProject_elim h)

/-- Witness for C3 at the fixture database: the active fixture row is
returned by getById and satisfies the active facts. -/
theorem claim_C3_witness : exObs1.supersededBy = none ∧ exObs1.deletedAt = none :=
  (claim_C3_default_retrieval_is_active exDb1 fts0 exQuery1 "o1" "authentication" "f" 10
    (some "/p") "/p" {}).1 exObs1 (by decide)

/-- C1: search with a non-empty projectPath P only returns observations of
sessions whose projectPath is P, and so does searchByConcept; observations
of sessions of other projects never appear. -/
theorem claim_C1_project_isolation
    (db : Db) (fts : String → Observation → Option Int) (q : SearchQuery) (P : String)
    (hP : q.projectPath = some P) (hne : P ≠ "") :
    (∀ r ∈ ObservationRepository.search db fts q,
      ∃ s ∈ db.sessions, s.id = r.observation.sessionId ∧ s.projectPath = P)
  ∧ (∀ (concept : String) (limit : Nat),
      ∀ o ∈ ObservationRepository.searchByConcept db concept limit (some P),
        ∃ s ∈ db.sessions, s.id = o.sessionId ∧ s.projectPath = P) := by
  have hPe : P.isEmpty = false := by
    rcases hb : P.isEmpty with _ | _
    · rfl
    · exact absurd ((String.isEmpty_iff P).1 hb) hne
  constructor
  · intro r h
    obtain ⟨p, hp, hobs, _, _⟩ := mem_search_elim h
    rw [hobs]
    exact searchFilter_project hP hne (mem_ftsCandidates_filter hp)
  · intro concept limit o h
    unfold ObservationRepository.searchByConcept at h
    have h1 := (List.mem_filter.1 (List.mem_of_mem_take h)).2
    simp only [Bool.and_eq_true] at h1
    have h2 := h1.2
    simp only [hPe, if_false, Bool.if_false_left] at h2
    have h3 : sessionJoinOk db P o = true := by simpa using h2
    unfold sessionJoinOk at h3
    simp only [List.any_eq_true, Bool.and_eq_true, decide_eq_true_eq] at h3
    obtain ⟨s, hs, hid, hpp⟩ := h3
    exact ⟨s, hs, hid, hpp⟩

/-- Witness for C1 at the fixture database: the result returned for the
project-scoped query belongs to a session of project /p. -/
theorem claim_C1_witness :
    ∃ s ∈ exDb1.sessions, s.id = exObs1.sessionId ∧ s.projectPath = "/p" :=
  (claim_C1_project_isolation exDb1 fts0 exQuery1 "/p" rfl (by decide)).1
    { observation := exObs1, rank := 0, snippet := exObs1.title } (by decide)

end OpenMem

namespace OpenMem

-- ---------------------------------------------------------------------------
-- C9: update with an empty patch
-- ---------------------------------------------------------------------------

/-- C9: for every active observation id, update with the empty patch returns
the existing observation unchanged, creates no revision row, and leaves the
whole database unmodified; the observation stays active. -/
theorem claim_C9_empty_patch_identity (db : Db) (id : String) (A : Observation)
    (hA : ObservationRepository.getById db id = some A) (newId now : String) :
    ObservationRepository.update db id {} newId now = (db, some A)
    ∧ A.supersededBy = none ∧ A.deletedAt = none := by
  refine ⟨?_, ?_⟩
  · unfold ObservationRepository.update
    rw [hA]
    rfl
  · have hp := List.find?_some hA
    simp only [Bool.and_eq_true] at hp
    simpa [Observation.isActive, Bool.and_eq_true, Option.isNone_iff_eq_none] using hp.2

/-- Witness for C9 at the fixture database. -/
theorem claim_C9_witness :
    ObservationRepository.update exDb1 "o1" {} "n1" ts1 = (exDb1, some exObs1) :=
  (claim_C9_empty_patch_identity exDb1 "o1" exObs1 (by decide) "n1" ts1).1

-- ---------------------------------------------------------------------------
-- C10: getCount counts every row
-- ---------------------------------------------------------------------------

/-- C10 (amended): getCount counts rows in every lineage state, so delete
leaves it unchanged; an update that creates a revision (hence with a
non-empty patch) raises it by one; and the active rows never outnumber it.
An empty-patch update succeeds without changing the count, which is the one
correction to the claim. -/
theorem claim_C10_count_all_rows (db : Db) (id : String) :
    (∀ now, ObservationRepository.getCount (ObservationRepository.delete db id now).1 none =
      ObservationRepository.getCount db none)
  ∧ (∀ (patch : ObservationRepository.ObservationPatch) (newId now : String) (A : Observation),
      ObservationRepository.getById db id = some A → patch.isEmpty = false →
      ObservationRepository.getCount (ObservationRepository.update db id patch newId now).1 none =
        ObservationRepository.getCount db none + 1)
  ∧ ((db.observations.filter (fun o => o.isActive)).length ≤
      ObservationRepository.getCount db none) := by
  refine ⟨?_, ?_, ?_⟩
  · intro now
    by_cases h : db.observations.any (fun o => (o.id = id : Bool)) = true
    · simp [ObservationRepository.delete, h,
        ObservationRepository.deleteEmbeddingsForObservations, ObservationRepository.getCount]
    · simp [ObservationRepository.delete, h, ObservationRepository.getCount]
  · intro patch newId now A hA hne
    unfold ObservationRepository.update
    rw [hA]
    simp [hne, ObservationRepository.create, ObservationRepository.setRevisionOf,
      ObservationRepository.supersede, ObservationRepository.getCount]
  · exact List.length_filter_le _ _

/-- Witness for C10: revising the fixture row raises the count by one. -/
theorem claim_C10_witness :
    ObservationRepository.getCount (ObservationRepository.update exDb2 "o1" exPatch2 "o2" ts1).1 none =
      ObservationRepository.getCount exDb2 none + 1 :=
  (claim_C10_count_all_rows exDb2 "o1").2.1 exPatch2 "o2" ts1 exObs2 (by decide) (by decide)

/-- Counterexample for C10 as stated: an empty-patch update succeeds (returns
the observation) yet leaves the count unchanged. -/
theorem claim_C10_counterexample :
    ((ObservationRepository.update exDb1 "o1" {} "n1" ts1).2).isSome = true
  ∧ ObservationRepository.getCount (ObservationRepository.update exDb1 "o1" {} "n1" ts1).1 none =
      ObservationRepository.getCount exDb1 none := by decide

end OpenMem

namespace OpenMem

-- ---------------------------------------------------------------------------
-- C5: delete
-- ---------------------------------------------------------------------------

lemma mem_ftsCandidates_row_mem {db : Db} {fts : String → Observation → Option Int}
    {q : SearchQuery} {p : Observation × Int}
    (h : p ∈ ObservationRepository.ftsCandidates db fts q) : p.1 ∈ db.observations := by
  unfold ObservationRepository.ftsCandidates at h
  have h1 := (List.mem_filter.1 h).1
  obtain ⟨o, ho, heq⟩ := List.mem_filterMap.1 h1
  obtain ⟨r, _, hr⟩ := Option.map_eq_some.1 heq
  rw [← hr]
  exact ho

lemma delete_observations_eq {db : Db} {id now : String}
    (h : db.observations.any (fun o => (o.id = id : Bool)) = true) :
    (ObservationRepository.delete db id now).1.observations =
      (db.observations.map (fun o => if o.id = id then { o with deletedAt := some now } else o)).map
        (fun o => if [id].contains o.id then { o with embedding := none } else o) := by
  simp [ObservationRepository.delete, h, ObservationRepository.deleteEmbeddingsForObservations]

/-- C5 (amended): delete(id) returns true exactly when a row with that id
exists in any lineage state (not only an active one); on success every such
row is stamped deleted_at = now and its embedding entries are removed; on
failure the database is untouched; after deletion the row stays addressable
through getByIdIncludingArchived while no FTS search result ever carries
that id. -/
theorem claim_C5_delete_tombstones (db : Db) (id now : String) :
    ((ObservationRepository.delete db id now).2 = true ↔ ∃ o ∈ db.observations, o.id = id)
  ∧ ((ObservationRepository.delete db id now).2 = false →
      (ObservationRepository.delete db id now).1 = db)
  ∧ (∀ o ∈ (ObservationRepository.delete db id now).1.observations, o.id = id →
      o.deletedAt = some now ∧ o.embedding = none)
  ∧ ((ObservationRepository.delete db id now).2 = true →
      ∀ e ∈ (ObservationRepository.delete db id now).1.obsEmbeddings, e.1 ≠ id)
  ∧ ((∃ o ∈ db.observations, o.id = id) →
      ∃ o2, ObservationRepository.getByIdIncludingArchived
          (ObservationRepository.delete db id now).1 id = some o2
        ∧ o2.id = id ∧ o2.deletedAt = some now)
  ∧ (∀ (fts : String → Observation → Option Int) (q : SearchQuery),
      ∀ r ∈ ObservationRepository.search (ObservationRepository.delete db id now).1 fts q,
        r.observation.id ≠ id) := by
  by_cases h : db.observations.any (fun o => (o.id = id : Bool)) = true
  · have hrows := @delete_observations_eq db id now h
    have hdel : ∀ o ∈ (ObservationRepository.delete db id now).1.observations, o.id = id →
        o.deletedAt = some now ∧ o.embedding = none := by
      intro o ho hid
      rw [hrows] at ho
      obtain ⟨o1, ho1, heq1⟩ := List.mem_map.1 ho
      obtain ⟨o0, ho0, heq0⟩ := List.mem_map.1 ho1
      by_cases h0 : o0.id = id
      · rw [← heq1, ← heq0]
        simp [h0]
      · exfalso
        rw [← heq0] at heq1
        rw [if_neg h0] at heq1
        have hc : ([id].contains o0.id) = false := by
          simp [h0]
        simp only [hc, Bool.false_eq_true, if_false] at heq1
        rw [← heq1] at hid
        exact h0 hid
    refine ⟨?_, ?_, hdel, ?_, ?_, ?_⟩
    · simp only [ObservationRepository.delete, h, if_true]
      simpa [List.any_eq_true] using h
    · intro hfalse
      simp [ObservationRepository.delete, h] at hfalse
    · intro _ e he
      simp only [ObservationRepository.delete, h, if_true,
        ObservationRepository.deleteEmbeddingsForObservations] at he
      simp only [List.isEmpty_cons, Bool.false_eq_true, if_false] at he
      have := (List.mem_filter.1 he).2
      simp at this
      exact this
    · intro hex
      have hex2 : ∃ o ∈ (ObservationRepository.delete db id now).1.observations,
          (o.id = id : Bool) = true := by
        obtain ⟨o, ho, hid⟩ := hex
        refine ⟨(fun o => if [id].contains o.id then { o with embedding := none } else o)
          ((fun o => if o.id = id then { o with deletedAt := some now } else o) o), ?_, ?_⟩
        · rw [hrows]
          exact List.mem_map.2 ⟨_, List.mem_map.2 ⟨o, ho, rfl⟩, rfl⟩
        · simp [hid]
      have hsome : (ObservationRepository.getByIdIncludingArchived
          (ObservationRepository.delete db id now).1 id).isSome := by
        unfold ObservationRepository.getByIdIncludingArchived
        rw [List.find?_isSome]
        exact hex2
      obtain ⟨o2, ho2⟩ := Option.isSome_iff_exists.1 hsome
      have hpred := List.find?_some ho2
      have hmem := List.mem_of_find?_eq_some ho2
      simp only [decide_eq_true_eq] at hpred
      exact ⟨o2, ho2, hpred, (hdel o2 hmem hpred).1⟩
    · intro fts q r hr hid
      obtain ⟨p, hp, hobs, _, _⟩ := mem_search_elim hr
      have hact := searchFilter_active (mem_ftsCandidates_filter hp)
      have hm := mem_ftsCandidates_row_mem hp
      have := (hdel p.1 hm (by rw [← hobs]; exact hid)).1
      rw [this] at hact
      exact Option.some_ne_none now hact.2
  · have hnone : ∀ o ∈ db.observations, o.id ≠ id := by
      intro o ho hid
      apply h
      rw [List.any_eq_true]
      exact ⟨o, ho, by simp [hid]⟩
    have hsame : ObservationRepository.delete db id now = (db, false) := by
      simp [ObservationRepository.delete, h]
    refine ⟨?_, ?_, ?_, ?_, ?_, ?_⟩
    · rw [hsame]
      simp only [Bool.false_eq_true, false_iff]
      intro hex
      obtain ⟨o, ho, hid⟩ := hex
      exact hnone o ho hid
    · intro _
      rw [hsame]
    · intro o ho hid
      rw [hsame] at ho
      exact absurd hid (hnone o ho)
    · intro htrue
      rw [hsame] at htrue
      simp at htrue
    · intro hex
      obtain ⟨o, ho, hid⟩ := hex
      exact absurd hid (hnone o ho)
    · intro fts q r hr hid
      rw [hsame] at hr
      obtain ⟨p, hp, hobs, _, _⟩ := mem_search_elim hr
      have hm := mem_ftsCandidates_row_mem hp
      exact hnone p.1 hm (by rw [← hobs]; exact hid)

/-- Witness for C5: deleting the active fixture row succeeds and the row
stays addressable through archived access with its tombstone stamp. -/
theorem claim_C5_witness :
    ∃ o2, ObservationRepository.getByIdIncludingArchived
        (ObservationRepository.delete exDb1 "o1" ts1).1 "o1" = some o2
      ∧ o2.id = "o1" ∧ o2.deletedAt = some ts1 :=
  (claim_C5_delete_tombstones exDb1 "o1" ts1).2.2.2.2.1 ⟨exObs1, by decide, by decide⟩

/-- Counterexample for C5 as stated: a superseded (non-active) row still
makes delete succeed, so success is not equivalent to the existence of an
active observation with that id. -/
theorem claim_C5_counterexample :
    ObservationRepository.getById exDb5 "s" = none
  ∧ (ObservationRepository.delete exDb5 "s" ts1).2 = true := by decide

end OpenMem

namespace OpenMem

-- ---------------------------------------------------------------------------
-- C2: update creates a revision
-- ---------------------------------------------------------------------------

lemma map_setRev_self (l : List Observation) (revOf targetId : String)
    (h : ∀ o ∈ l, o.id ≠ targetId) :
    l.map (fun o => if o.id = targetId then { o with revisionOf := some revOf } else o) = l := by
  conv_rhs => rw [← List.map_id l]
  apply List.map_congr_left
  intro o ho
  rw [if_neg (h o ho)]
  rfl

lemma setRev_on_append (db : Db) (row : Observation) (revOf targetId : String)
    (hfresh : ∀ o ∈ db.observations, o.id ≠ targetId) (hrow : row.id = targetId) :
    ObservationRepository.setRevisionOf
        { db with observations := db.observations ++ [row] } revOf targetId =
      { db with observations := db.observations ++ [{ row with revisionOf := some revOf }] } := by
  unfold ObservationRepository.setRevisionOf
  congr 1
  rw [List.map_append, map_setRev_self db.observations revOf targetId hfresh]
  simp [hrow]

lemma supersede_on_append (db : Db) (row : Observation) (id newId now : String)
    (hrowne : row.id ≠ id) :
    ObservationRepository.supersede
        { db with observations := db.observations ++ [row] } id newId now =
      { db with observations := db.observations.map (supersedeMark id newId now) ++ [row] } := by
  unfold ObservationRepository.supersede supersedeMark
  congr 1
  rw [List.map_append]
  simp [hrowne]

lemma getById_last (l : List Observation) (row : Observation) (newId : String)
    (sessions : List Session) (emb : List (String × List Int))
    (hfresh : ∀ o ∈ l, o.id ≠ newId) (hrow : row.id = newId) (hact : row.isActive = true) :
    ObservationRepository.getById
      { observations := l ++ [row], sessions := sessions, obsEmbeddings := emb } newId =
      some row := by
  unfold ObservationRepository.getById
  rw [List.find?_append]
  have h1 : l.find? (fun o => o.id = newId && o.isActive) = none := by
    rw [List.find?_eq_none]
    intro x hx
    simp only [Bool.and_eq_true, decide_eq_true_eq, not_and]
    intro hxnew
    exact absurd hxnew (hfresh x hx)
  rw [h1]
  simp [List.find?, hrow, hact]

lemma supersedeMark_id (id newId now : String) (o : Observation) :
    (supersedeMark id newId now o).id = o.id := by
  unfold supersedeMark
  by_cases hc : o.id = id <;> simp [hc]

/-- C2 (amended): update on a missing or inactive id fails with none and
leaves the database untouched; on an active id with a non-empty patch and a
fresh revision id it appends exactly one new active row carrying the patched
fields, copying sessionId, scope, rawToolOutput, tokenCount and
discoveryTokens from the predecessor, stamping createdAt = now and the
constant toolName mem-revise (the one field the claim wrongly said is
copied), pointing revisionOf at the predecessor, marking every predecessor
row supersededBy the new id at supersededAt = now, leaving the other rows
unchanged, and returning the new record. -/
theorem claim_C2_update_creates_revision (db : Db) (id : String)
    (patch : ObservationRepository.ObservationPatch) (newId now : String) :
    (ObservationRepository.getById db id = none →
      ObservationRepository.update db id patch newId now = (db, none))
  ∧ (∀ A, ObservationRepository.getById db id = some A → patch.isEmpty = false →
      (∀ o ∈ db.observations, o.id ≠ newId) →
      ∃ r, r = revisionRow id A patch newId now
        ∧ (ObservationRepository.update db id patch newId now).2 = some r
        ∧ r.id = newId ∧ r.revisionOf = some id
        ∧ r.supersededBy = none ∧ r.deletedAt = none
        ∧ r.createdAt = now ∧ r.toolName = "mem-revise"
        ∧ r.title = patch.title.getD A.title
        ∧ r.narrative = patch.narrative.getD A.narrative
        ∧ r.type = patch.type.getD A.type
        ∧ r.concepts = patch.concepts.getD A.concepts
        ∧ r.importance = patch.importance.getD A.importance
        ∧ r.facts = patch.facts.getD A.facts
        ∧ r.subtitle = patch.subtitle.getD A.subtitle
        ∧ r.filesRead = patch.filesRead.getD A.filesRead
        ∧ r.filesModified = patch.filesModified.getD A.filesModified
        ∧ r.sessionId = A.sessionId ∧ r.scope = A.scope
        ∧ r.rawToolOutput = A.rawToolOutput
        ∧ r.tokenCount = A.tokenCount ∧ r.discoveryTokens = A.discoveryTokens
        ∧ (ObservationRepository.update db id patch newId now).1.observations =
            db.observations.map (supersedeMark id newId now) ++ [r]) := by
  constructor
  · intro h
    unfold ObservationRepository.update
    rw [h]
  · intro A hA hne hfresh
    have hmemA := List.mem_of_find?_eq_some hA
    have hpredA := List.find?_some hA
    simp only [Bool.and_eq_true, decide_eq_true_eq] at hpredA
    have hAid : A.id = id := hpredA.1
    have hidne : ¬ (id = newId) := fun hh => (hfresh A hmemA) (hAid.trans hh)
    have hfresh2 : ∀ o ∈ db.observations.map (supersedeMark id newId now), o.id ≠ newId := by
      intro x hx
      obtain ⟨o, ho, hxo⟩ := List.mem_map.1 hx
      rw [← hxo, supersedeMark_id]
      exact hfresh o ho
    have hupd : ObservationRepository.update db id patch newId now =
        ({ db with observations :=
            db.observations.map (supersedeMark id newId now) ++ [revisionRow id A patch newId now] },
         some (revisionRow id A patch newId now)) := by
      unfold ObservationRepository.update
      rw [hA]
      simp only [hne, Bool.false_eq_true, if_false]
      show (ObservationRepository.supersede (ObservationRepository.setRevisionOf
          (ObservationRepository.create db (updateBody A patch) newId now).1 id newId) id newId now,
        ObservationRepository.getById (ObservationRepository.supersede
          (ObservationRepository.setRevisionOf
            (ObservationRepository.create db (updateBody A patch) newId now).1 id newId)
          id newId now) newId) = _
      have hc1 : (ObservationRepository.create db (updateBody A patch) newId now).1 =
          { db with observations := db.observations ++
              [{ revisionRow id A patch newId now with revisionOf := none }] } := rfl
      rw [hc1]
      rw [setRev_on_append db _ id newId hfresh rfl]
      rw [supersede_on_append db _ id newId now
        (show ¬ (newId = id) from fun hh => hidne hh.symm)]
      rw [getById_last _ _ _ _ _ hfresh2 (by rfl) (by rfl)]
      rfl
    refine ⟨revisionRow id A patch newId now, rfl, ?_, rfl, rfl, rfl, rfl, rfl, rfl, rfl, rfl,
      rfl, rfl, rfl, rfl, rfl, rfl, rfl, rfl, rfl, rfl, rfl, rfl, ?_⟩
    · rw [hupd]
    · rw [hupd]

/-- Witness for C2: revising the fixture row returns its patched successor
and supersedes the predecessor. -/
theorem claim_C2_witness :
    ∃ r, r = revisionRow "o1" exObs2 exPatch2 "o2" ts1
      ∧ (ObservationRepository.update exDb2 "o1" exPatch2 "o2" ts1).2 = some r
      ∧ r.id = "o2" ∧ r.revisionOf = some "o1" ∧ r.supersededBy = none ∧ r.deletedAt = none
      ∧ r.createdAt = ts1 ∧ r.toolName = "mem-revise"
      ∧ r.title = exPatch2.title.getD exObs2.title
      ∧ r.narrative = exPatch2.narrative.getD exObs2.narrative
      ∧ r.type = exPatch2.type.getD exObs2.type
      ∧ r.concepts = exPatch2.concepts.getD exObs2.concepts
      ∧ r.importance = exPatch2.importance.getD exObs2.importance
      ∧ r.facts = exPatch2.facts.getD exObs2.facts
      ∧ r.subtitle = exPatch2.subtitle.getD exObs2.subtitle
      ∧ r.filesRead = exPatch2.filesRead.getD exObs2.filesRead
      ∧ r.filesModified = exPatch2.filesModified.getD exObs2.filesModified
      ∧ r.sessionId = exObs2.sessionId ∧ r.scope = exObs2.scope
      ∧ r.rawToolOutput = exObs2.rawToolOutput
      ∧ r.tokenCount = exObs2.tokenCount ∧ r.discoveryTokens = exObs2.discoveryTokens
      ∧ (ObservationRepository.update exDb2 "o1" exPatch2 "o2" ts1).1.observations =
          exDb2.observations.map (supersedeMark "o1" "o2" ts1) ++ [r] :=
  (claim_C2_update_creates_revision exDb2 "o1" exPatch2 "o2" ts1).2 exObs2
    (by decide) (by decide) (by decide)

/-- Counterexample for C2 as stated: toolName is an unpatched field, yet the
revision created for the bash-produced fixture row does not copy it; the new
row always carries the constant toolName mem-revise. -/
theorem claim_C2_counterexample :
    ((ObservationRepository.update exDb2 "o1" exPatch2 "o2" ts1).2.map
      (fun o => o.toolName)) = some "mem-revise"
  ∧ (ObservationRepository.getById exDb2 "o1").map (fun o => o.toolName) = some "bash" := by
  decide

end OpenMem

namespace OpenMem

-- ---------------------------------------------------------------------------
-- C8: search result order
-- ---------------------------------------------------------------------------

/-- C8 (amended): search results are ordered by the FTS rank score ascending,
and among results tying on rank the order is the table scan order of the
stable sort — the SQL has no importance, createdAt or id tie-breaking
clause.  The second part is the stability statement: candidates in scan
order with non-decreasing ranks keep their relative order. -/
theorem claim_C8_rank_order (db : Db) (fts : String → Observation → Option Int)
    (q : SearchQuery) :
    List.Pairwise (fun a b : SearchResult => a.rank ≤ b.rank)
      (ObservationRepository.search db fts q)
  ∧ (∀ a b : Observation × Int, a.2 ≤ b.2 →
      List.Sublist [a, b] (ObservationRepository.ftsCandidates db fts q) →
      List.Sublist [a, b] (ObservationRepository.rankedCandidates db fts q)) := by
  constructor
  · haveI hTot : IsTotal (Observation × Int) (fun a b => a.2 ≤ b.2) :=
      ⟨fun a b => Int.le_total a.2 b.2⟩
    haveI hTrans : IsTrans (Observation × Int) (fun a b => a.2 ≤ b.2) :=
      ⟨fun _ _ _ hab hbc => le_trans hab hbc⟩
    have hsorted : List.Pairwise (fun a b : Observation × Int => a.2 ≤ b.2)
        (ObservationRepository.rankedCandidates db fts q) := by
      unfold ObservationRepository.rankedCandidates
      exact List.sorted_insertionSort _ _
    have hsub : List.Sublist
        (((ObservationRepository.rankedCandidates db fts q).drop (q.offset.getD 0)).take
          (q.limit.getD 10))
        (ObservationRepository.rankedCandidates db fts q) :=
      (List.take_sublist _ _).trans (List.drop_sublist _ _)
    have hp2 := hsorted.sublist hsub
    unfold ObservationRepository.search
    rw [List.pairwise_map]
    exact hp2
  · intro a b hle hsub
    unfold ObservationRepository.rankedCandidates
    exact List.pair_sublist_insertionSort hle hsub

/-- Witness for C8: the two tying fixture candidates keep their scan order
in the ranked list. -/
theorem claim_C8_witness :
    List.Sublist [(exObs8a, (0 : Int)), (exObs8b, (0 : Int))]
      (ObservationRepository.rankedCandidates exDb8 fts0 exQ8) :=
  (claim_C8_rank_order exDb8 fts0 exQ8).2 (exObs8a, 0) (exObs8b, 0) (by decide) (by decide)

/-- Counterexample for C8 as stated: two results tie on rank 0 with equal
createdAt, yet the lower-importance row comes first, so ties are not broken
by importance descending. -/
theorem claim_C8_counterexample :
    (ObservationRepository.search exDb8 fts0 exQ8).map
      (fun r => (r.observation.id, r.observation.importance, r.rank)) =
      [("a", 1, 0), ("b", 5, 0)]
  ∧ exObs8a.createdAt = exObs8b.createdAt := by decide

end OpenMem

namespace OpenMem

-- ---------------------------------------------------------------------------
-- C6: the filter-only strategy
-- ---------------------------------------------------------------------------

lemma mergeAux_sublist (limit : Nat) :
    ∀ (items : List SearchResult) (seen : List String) (count : Nat),
      List.Sublist (mergeByObservationIdAux limit items seen count) items := by
  intro items
  induction items with
  | nil =>
    intro seen count
    unfold mergeByObservationIdAux
    exact List.Sublist.refl _
  | cons item rest ih =>
    intro seen count
    unfold mergeByObservationIdAux
    by_cases h1 : item.observation.id ∈ seen
    · rw [if_pos h1]
      exact (ih _ _).cons _
    · rw [if_neg h1]
      by_cases h2 : limit ≤ count + 1
      · rw [if_pos h2]
        exact (List.nil_sublist _).cons₂ _
      · rw [if_neg h2]
        exact (ih _ _).cons₂ _

lemma mergeAux_nodup (limit : Nat) :
    ∀ (items : List SearchResult) (seen : List String) (count : Nat),
      (∀ i ∈ (mergeByObservationIdAux limit items seen count).map
        (fun r => r.observation.id), i ∉ seen)
      ∧ ((mergeByObservationIdAux limit items seen count).map
          (fun r => r.observation.id)).Nodup := by
  intro items
  induction items with
  | nil =>
    intro seen count
    unfold mergeByObservationIdAux
    simp
  | cons item rest ih =>
    intro seen count
    unfold mergeByObservationIdAux
    by_cases h1 : item.observation.id ∈ seen
    · rw [if_pos h1]
      exact ih seen count
    · rw [if_neg h1]
      by_cases h2 : limit ≤ count + 1
      · rw [if_pos h2]
        constructor
        · intro i hi
          simp only [List.map_cons, List.map_nil, List.mem_singleton] at hi
          rw [hi]
          exact h1
        · simp
      · rw [if_neg h2]
        obtain ⟨ihs, ihn⟩ := ih (item.observation.id :: seen) (count + 1)
        constructor
        · intro i hi
          simp only [List.map_cons, List.mem_cons] at hi
          rcases hi with hi | hi
          · rw [hi]
            exact h1
          · intro hmem
            exact (ihs i hi) (List.mem_cons_of_mem _ hmem)
        · simp only [List.map_cons, List.nodup_cons]
          refine ⟨?_, ihn⟩
          intro hmem
          exact (ihs _ hmem) (List.mem_cons_self _ _)

lemma branch_out_props (gathered : List Observation) (mk : Observation → SearchResult)
    (options : StrategyOptions) (limit : Nat) :
    (∀ r ∈ (applyAdditionalFilters
        (mergeByObservationId (gathered.map mk) limit) options).take limit,
      passesAdditionalFilters options r = true ∧ ∃ o ∈ gathered, r = mk o)
    ∧ ((applyAdditionalFilters
        (mergeByObservationId (gathered.map mk) limit) options).take limit).length ≤ limit
    ∧ (((applyAdditionalFilters
        (mergeByObservationId (gathered.map mk) limit) options).take limit).map
          (fun r => r.observation.id)).Nodup
    ∧ List.Sublist
        ((applyAdditionalFilters
          (mergeByObservationId (gathered.map mk) limit) options).take limit)
        (gathered.map mk) := by
  have hmerge_sub : List.Sublist (mergeByObservationId (gathered.map mk) limit)
      (gathered.map mk) := mergeAux_sublist limit _ [] 0
  have hout_sub_merge : List.Sublist
      ((applyAdditionalFilters (mergeByObservationId (gathered.map mk) limit) options).take limit)
      (mergeByObservationId (gathered.map mk) limit) :=
    (List.take_sublist _ _).trans (List.filter_sublist _)
  refine ⟨?_, List.length_take_le _ _, ?_, hout_sub_merge.trans hmerge_sub⟩
  · intro r hr
    have h1 := List.mem_of_mem_take hr
    have h2 := List.mem_filter.1 h1
    refine ⟨h2.2, ?_⟩
    have h3 := hmerge_sub.subset h2.1
    obtain ⟨o, ho, hro⟩ := List.mem_map.1 h3
    exact ⟨o, ho, hro.symm⟩
  · have hmn := (mergeAux_nodup limit (gathered.map mk) [] 0).2
    exact (hout_sub_merge.map _).nodup hmn

/-- C6: the filter-only strategy gathers by concept terms when any are
present (singular or plural form), deduplicates by observation id keeping
first-seen order, marks results matchedBy concept-filter, re-applies all
provided filters as a conjunction and truncates to the limit; with no
concept term it does the same over file terms; with neither it runs the
general FTS search; and the literal scenario with concept authentication
plus concepts [hooks] returns both observations deduped by id. -/
theorem claim_C6_filter_only_strategy (deps : StrategyDeps) (query : String)
    (options : StrategyOptions) (limit : Nat) :
    (conceptTerms options ≠ [] →
      (∀ r ∈ executeFilterOnlyStrategy deps query options limit,
        r.rank = 0 ∧ r.snippet = r.observation.title
        ∧ r.explain = some { strategy := some "filter-only", matchedBy := ["concept-filter"] }
        ∧ passesAdditionalFilters options r = true
        ∧ ∃ c ∈ conceptTerms options,
            r.observation ∈ deps.searchByConcept c limit options.projectPath)
      ∧ (executeFilterOnlyStrategy deps query options limit).length ≤ limit
      ∧ ((executeFilterOnlyStrategy deps query options limit).map
          (fun r => r.observation.id)).Nodup
      ∧ List.Sublist (executeFilterOnlyStrategy deps query options limit)
          (((conceptTerms options).flatMap
            (fun c => deps.searchByConcept c limit options.projectPath)).map
              conceptGatherResult))
  ∧ (conceptTerms options = [] → fileTerms options ≠ [] →
      (∀ r ∈ executeFilterOnlyStrategy deps query options limit,
        r.rank = 0 ∧ r.snippet = r.observation.title
        ∧ r.explain = some { strategy := some "filter-only", matchedBy := ["file-filter"] }
        ∧ passesAdditionalFilters options r = true
        ∧ ∃ f ∈ fileTerms options,
            r.observation ∈ deps.searchByFile f limit options.projectPath)
      ∧ (executeFilterOnlyStrategy deps query options limit).length ≤ limit
      ∧ ((executeFilterOnlyStrategy deps query options limit).map
          (fun r => r.observation.id)).Nodup
      ∧ List.Sublist (executeFilterOnlyStrategy deps query options limit)
          (((fileTerms options).flatMap
            (fun f => deps.searchByFile f limit options.projectPath)).map fileGatherResult))
  ∧ (conceptTerms options = [] → fileTerms options = [] →
      executeFilterOnlyStrategy deps query options limit = deps.search
        { query := query, type := options.type, limit := some limit,
          projectPath := some options.projectPath, importanceMin := options.importanceMin,
          importanceMax := options.importanceMax, createdAfter := options.createdAfter,
          createdBefore := options.createdBefore, concepts := options.concepts,
          files := options.files })
  ∧ executeFilterOnlyStrategy (repoDeps exDb6 fts0) "anything" opts6 10 =
      [conceptGatherResult obsAuth, conceptGatherResult obsHooks] := by
  refine ⟨?_, ?_, ?_, by decide⟩
  · intro hct
    have hout : executeFilterOnlyStrategy deps query options limit =
        (applyAdditionalFilters
          (mergeByObservationId
            (((conceptTerms options).flatMap
              (fun c => deps.searchByConcept c limit options.projectPath)).map
                conceptGatherResult) limit) options).take limit := by
      unfold executeFilterOnlyStrategy
      rcases hl : conceptTerms options with _ | ⟨c, cs⟩
      · exact absurd hl hct
      · simp only [hl, List.isEmpty_cons, Bool.not_false, if_true]
    rw [hout]
    obtain ⟨hmem, hlen, hnd, hsub⟩ := branch_out_props
      ((conceptTerms options).flatMap (fun c => deps.searchByConcept c limit options.projectPath))
      conceptGatherResult options limit
    refine ⟨?_, hlen, hnd, hsub⟩
    intro r hr
    obtain ⟨hpass, o, ho, rfl⟩ := hmem r hr
    obtain ⟨c, hc, hoc⟩ := List.mem_flatMap.1 ho
    exact ⟨rfl, rfl, rfl, hpass, c, hc, hoc⟩
  · intro hct hft
    have hout : executeFilterOnlyStrategy deps query options limit =
        (applyAdditionalFilters
          (mergeByObservationId
            (((fileTerms options).flatMap
              (fun f => deps.searchByFile f limit options.projectPath)).map
                fileGatherResult) limit) options).take limit := by
      unfold executeFilterOnlyStrategy
      rcases hl : fileTerms options with _ | ⟨f, fs⟩
      · exact absurd hl hft
      · simp only [hct, hl, List.isEmpty_cons, List.isEmpty_nil, Bool.not_false, Bool.not_true,
          if_true, Bool.false_eq_true, if_false]
    rw [hout]
    obtain ⟨hmem, hlen, hnd, hsub⟩ := branch_out_props
      ((fileTerms options).flatMap (fun f => deps.searchByFile f limit options.projectPath))
      fileGatherResult options limit
    refine ⟨?_, hlen, hnd, hsub⟩
    intro r hr
    obtain ⟨hpass, o, ho, rfl⟩ := hmem r hr
    obtain ⟨f, hf, hof⟩ := List.mem_flatMap.1 ho
    exact ⟨rfl, rfl, rfl, hpass, f, hf, hof⟩
  · intro hct hft
    unfold executeFilterOnlyStrategy
    simp only [hct, hft, List.isEmpty_nil, Bool.not_true, Bool.false_eq_true, if_false]

/-- Witness for C6 at the scenario fixture: the returned list, obtained
through the concept branch of the theorem, is deduplicated by id. -/
theorem claim_C6_witness :
    ((executeFilterOnlyStrategy (repoDeps exDb6 fts0) "anything" opts6 10).map
      (fun r => r.observation.id)).Nodup :=
  ((claim_C6_filter_only_strategy (repoDeps exDb6 fts0) "anything" opts6 10).1
    (by decide)).2.2.1

end OpenMem

namespace OpenMem

-- ---------------------------------------------------------------------------
-- C7: mode resolution with a cyclic extends chain
-- ---------------------------------------------------------------------------

lemma extChainAt_succ_none {modes : List ModeConfigSource} {i : String}
    (hstep : extStep modes i = none) (t : Nat) :
    extChainAt modes i (t + 1) = none := by
  induction t with
  | zero => simp [extChainAt, hstep]
  | succ t ih =>
    show (extChainAt modes i (t + 1)).bind (extStep modes) = none
    rw [ih]
    rfl

lemma extChainAt_succ_some {modes : List ModeConfigSource} {i e : String}
    (hstep : extStep modes i = some e) (t : Nat) :
    extChainAt modes i (t + 1) = extChainAt modes e t := by
  induction t with
  | zero => simp [extChainAt, hstep]
  | succ t ih =>
    show (extChainAt modes i (t + 1)).bind (extStep modes) = (extChainAt modes e t).bind (extStep modes)
    rw [ih]

lemma extChainAt_none_mono {modes : List ModeConfigSource} {i : String} {t t' : Nat}
    (hle : t ≤ t') (hn : extChainAt modes i t = none) : extChainAt modes i t' = none := by
  induction t' with
  | zero =>
    have : t = 0 := Nat.le_zero.1 hle
    rw [← this]
    exact hn
  | succ t' ih =>
    rcases Nat.le_succ_iff.1 hle with h | h
    · show (extChainAt modes i t').bind (extStep modes) = none
      rw [ih h]
      rfl
    · subst h
      exact hn

lemma extChainAt_add {modes : List ModeConfigSource} {i : String} {j k : Nat}
    (h : extChainAt modes i j = extChainAt modes i k) (s : Nat) :
    extChainAt modes i (j + s) = extChainAt modes i (k + s) := by
  induction s with
  | zero => simpa using h
  | succ s ih =>
    show extChainAt modes i (j + s + 1) = extChainAt modes i (k + s + 1)
    show (extChainAt modes i (j + s)).bind (extStep modes) =
      (extChainAt modes i (k + s)).bind (extStep modes)
    rw [ih]

lemma extChain_nonhalt {modes : List ModeConfigSource} {i : String} {j k : Nat} {x : String}
    (hj : extChainAt modes i j = some x) (hk : extChainAt modes i k = some x) (hjk : j < k) :
    ∀ t, extChainAt modes i t ≠ none := by
  intro t
  induction t using Nat.strong_induction_on with
  | _ t ih =>
    by_cases ht : t ≤ k
    · intro hn
      have := extChainAt_none_mono ht hn
      rw [hk] at this
      exact Option.some_ne_none x this
    · push_neg at ht
      have hs : t = k + (t - k) := by omega
      have heq := extChainAt_add (hj.trans hk.symm) (t - k)
      rw [hs, ← heq]
      exact ih (j + (t - k)) (by omega)

lemma nonhalt_step {modes : List ModeConfigSource} {i : String}
    (h : ∀ t, extChainAt modes i t ≠ none) :
    ∃ e, extStep modes i = some e ∧ (∀ t, extChainAt modes e t ≠ none) := by
  cases hstep : extStep modes i with
  | none =>
    exact absurd (extChainAt_succ_none hstep 0) (h 1)
  | some e =>
    refine ⟨e, rfl, ?_⟩
    intro t
    have := h (t + 1)
    rw [extChainAt_succ_some hstep t] at this
    exact this

lemma resolveInner_flag (modes : List ModeConfigSource) :
    ∀ (fuel : Nat) (i : String) (seen : List String),
      (∀ t, extChainAt modes i t ≠ none) → (resolveInner modes fuel i seen).2 = true := by
  intro fuel
  induction fuel with
  | zero => intro i seen _; rfl
  | succ fuel ih =>
    intro i seen h
    obtain ⟨e, hstep, he⟩ := nonhalt_step h
    unfold extStep at hstep
    unfold resolveInner
    by_cases hseen : i ∈ seen
    · rw [if_pos hseen]
    · rw [if_neg hseen]
      cases hm : modeGet modes i with
      | none =>
        rw [hm] at hstep
        simp at hstep
      | some m =>
        rw [hm] at hstep
        dsimp only at hstep
        dsimp only
        cases hext : m.extendsId with
        | none =>
          rw [hext] at hstep
          simp at hstep
        | some e2 =>
          rw [hext] at hstep
          dsimp only at hstep
          dsimp only
          by_cases hemp : e2.isEmpty = true
          · rw [if_pos hemp] at hstep
            exact absurd hstep (by simp)
          · have hempf : e2.isEmpty = false := by
              cases hb : e2.isEmpty
              · rfl
              · exact absurd hb hemp
            rw [if_neg hemp] at hstep
            have he2 : e2 = e := Option.some.inj hstep
            simp only [hempf, Bool.false_eq_true, if_false]
            have hflag := ih e2 (i :: seen) (he2 ▸ he)
            simp only [hflag, if_true]

lemma modeSeenMeasure_lt (modes : List ModeConfigSource) (i : String) (seen : List String)
    (hmem : i ∈ modes.map (fun m => m.id)) (hni : i ∉ seen) :
    modeSeenMeasure modes (i :: seen) < modeSeenMeasure modes seen := by
  unfold modeSeenMeasure
  have hpred : ∀ x ∈ (modes.map (fun m => m.id)).dedup,
      (decide (x ∉ i :: seen)) = ((decide (x ∉ seen)) && !(x = i : Bool)) := by
    intro x _
    by_cases h1 : x = i <;> by_cases h2 : x ∈ seen <;> simp [h1, h2]
  rw [List.filter_congr hpred]
  rw [← List.filter_filter, List.filter_comm]
  apply List.length_filter_lt_length_iff_exists.2
  refine ⟨i, ?_, ?_⟩
  · rw [List.mem_filter]
    exact ⟨List.mem_dedup.2 hmem, by simp [hni]⟩
  · simp

lemma resolveInner_fuel (modes : List ModeConfigSource) :
    ∀ (fuel extra : Nat) (i : String) (seen : List String),
      modeSeenMeasure modes seen < fuel →
      resolveInner modes (fuel + extra) i seen = resolveInner modes fuel i seen := by
  intro fuel
  induction fuel with
  | zero => intro extra i seen h; exact absurd h (Nat.not_lt_zero _)
  | succ fuel ih =>
    intro extra i seen h
    have hadd : (fuel + 1) + extra = (fuel + extra) + 1 := by omega
    rw [hadd]
    show resolveInner modes ((fuel + extra) + 1) i seen = resolveInner modes (fuel + 1) i seen
    unfold resolveInner
    by_cases hseen : i ∈ seen
    · rw [if_pos hseen, if_pos hseen]
    · rw [if_neg hseen, if_neg hseen]
      cases hm : modeGet modes i with
      | none => rfl
      | some m =>
        dsimp only
        cases hext : m.extendsId with
        | none => rfl
        | some e =>
          dsimp only
          by_cases hemp : e.isEmpty = true
          · simp only [hemp, if_true]
          · have hempf : e.isEmpty = false := by
              cases hb : e.isEmpty
              · rfl
              · exact absurd hb hemp
            simp only [hempf, Bool.false_eq_true, if_false]
            have hi_mode : i ∈ modes.map (fun mm => mm.id) := by
              have hmm := List.mem_of_find?_eq_some hm
              have hp := List.find?_some hm
              simp only [decide_eq_true_eq] at hp
              exact List.mem_map.2 ⟨m, hmm, hp⟩
            have hlt := modeSeenMeasure_lt modes i seen hi_mode hseen
            rw [ih extra e (i :: seen) (by omega)]

/-- C7: when following extends from the requested id revisits an id (the
extends chain takes the same value at two distinct positions), resolveById
returns the default mode (id code) without error; and resolution always
terminates: every recursion bound at least the map size plus one computes
the same result. -/
theorem claim_C7_cyclic_extends_default (modes : List ModeConfigSource) (id : String) :
    ((∃ j k x, j < k ∧ extChainAt modes id j = some x ∧ extChainAt modes id k = some x) →
      resolveById modes id = DEFAULT_MODE)
  ∧ (∀ extra, resolveByIdFuel modes id (modes.length + 1 + extra) = resolveById modes id) := by
  constructor
  · intro hcyc
    obtain ⟨j, k, x, hjk, hj, hk⟩ := hcyc
    have hnh := extChain_nonhalt hj hk hjk
    have hflag := resolveInner_flag modes (modes.length + 1) id [] hnh
    unfold resolveById resolveByIdFuel
    simp only [hflag, if_true]
    rfl
  · intro extra
    unfold resolveById resolveByIdFuel
    have hmeas : modeSeenMeasure modes [] < modes.length + 1 := by
      unfold modeSeenMeasure
      have h1 := List.length_filter_le (fun i => decide (i ∉ ([] : List String)))
        ((modes.map (fun m => m.id)).dedup)
      have h2 := (List.dedup_sublist (modes.map (fun m => m.id))).length_le
      rw [List.length_map] at h2
      omega
    rw [resolveInner_fuel modes (modes.length + 1) extra id [] hmeas]

/-- Witness for C7 at the two-mode cycle a extends b extends a: the resolver
returns the default mode. -/
theorem claim_C7_witness : resolveById exModesCyc "a" = DEFAULT_MODE :=
  (claim_C7_cyclic_extends_default exModesCyc "a").1
    ⟨0, 2, "a", by omega, by decide, by decide⟩

end OpenMem

namespace OpenMem

-- ---------------------------------------------------------------------------
-- C4: getLineage
-- ---------------------------------------------------------------------------

lemma mem_of_getLast?_eq {α : Type} {l : List α} {t : α} (h : l.getLast? = some t) : t ∈ l := by
  have hmem : t ∈ l.getLast? := by
    rw [h]
    rfl
  obtain ⟨hne, heq⟩ := List.mem_getLast?_eq_getLast hmem
  rw [heq]
  exact List.getLast_mem hne

lemma backWalk_step_cases (db : Db) (fuel : Nat) (h : Observation) (rest : List Observation)
    (seen : List String) :
    (∃ rid p, h.revisionOf = some rid ∧
      ObservationRepository.getByIdIncludingArchived db rid = some p ∧ p.id ∉ seen ∧
      ObservationRepository.backWalk db (fuel + 1) (h :: rest) seen =
        ObservationRepository.backWalk db fuel (p :: h :: rest) (p.id :: seen))
    ∨ ObservationRepository.backWalk db (fuel + 1) (h :: rest) seen = (h :: rest, seen) := by
  rw [ObservationRepository.backWalk.eq_2]
  simp only [List.head?_cons]
  cases hrev : h.revisionOf with
  | none => exact Or.inr rfl
  | some rid =>
    by_cases hemp : rid.isEmpty = true
    · simp only [hemp, if_true]
      exact Or.inr trivial
    · have hempf : rid.isEmpty = false := by
        cases hb : rid.isEmpty
        · rfl
        · exact absurd hb hemp
      simp only [hempf, Bool.false_eq_true, if_false]
      cases hget : ObservationRepository.getByIdIncludingArchived db rid with
      | none => exact Or.inr rfl
      | some p =>
        dsimp only
        by_cases hsn : p.id ∈ seen
        · rw [if_pos hsn]
          exact Or.inr rfl
        · rw [if_neg hsn]
          refine Or.inl ⟨rid, p, rfl, hget, hsn, ?_⟩
          rfl

lemma forWalk_step_cases (db : Db) (fuel : Nat) (chain : List Observation) (seen : List String) :
    (∃ t nid nx, chain.getLast? = some t ∧ t.supersededBy = some nid ∧
      ObservationRepository.getByIdIncludingArchived db nid = some nx ∧ nx.id ∉ seen ∧
      ObservationRepository.forWalk db (fuel + 1) chain seen =
        ObservationRepository.forWalk db fuel (chain ++ [nx]) (nx.id :: seen))
    ∨ ObservationRepository.forWalk db (fuel + 1) chain seen = (chain, seen) := by
  rw [ObservationRepository.forWalk.eq_2]
  cases hlast : chain.getLast? with
  | none => exact Or.inr rfl
  | some t =>
    dsimp only
    cases hsup : t.supersededBy with
    | none => exact Or.inr rfl
    | some nid =>
      by_cases hemp : nid.isEmpty = true
      · simp only [hemp, if_true]
        exact Or.inr trivial
      · have hempf : nid.isEmpty = false := by
          cases hb : nid.isEmpty
          · rfl
          · exact absurd hb hemp
        simp only [hempf, Bool.false_eq_true, if_false]
        cases hget : ObservationRepository.getByIdIncludingArchived db nid with
        | none => exact Or.inr rfl
        | some nx =>
          dsimp only
          by_cases hsn : nx.id ∈ seen
          · rw [if_pos hsn]
            exact Or.inr rfl
          · rw [if_neg hsn]
            refine Or.inl ⟨t, nid, nx, rfl, hsup, hget, hsn, ?_⟩
            rfl

lemma backWalk_inv (db : Db) :
    ∀ (fuel : Nat) (chain : List Observation) (seen : List String),
      chain ≠ [] →
      (∀ x ∈ chain, x ∈ db.observations) →
      ((chain.map (fun o => o.id)).Nodup) →
      (∀ i, i ∈ chain.map (fun o => o.id) ↔ i ∈ seen) →
      ((ObservationRepository.backWalk db fuel chain seen).1 ≠ []
      ∧ (∀ x ∈ (ObservationRepository.backWalk db fuel chain seen).1, x ∈ db.observations)
      ∧ (((ObservationRepository.backWalk db fuel chain seen).1.map (fun o => o.id)).Nodup)
      ∧ (∀ i, i ∈ (ObservationRepository.backWalk db fuel chain seen).1.map (fun o => o.id) ↔
          i ∈ (ObservationRepository.backWalk db fuel chain seen).2)
      ∧ (∀ x ∈ chain, x ∈ (ObservationRepository.backWalk db fuel chain seen).1)
      ∧ (lineageCoherent db → List.Chain' lineageAdj chain →
          List.Chain' lineageAdj (ObservationRepository.backWalk db fuel chain seen).1)) := by
  intro fuel
  induction fuel with
  | zero =>
    intro chain seen hne hsub hnd hiff
    exact ⟨hne, hsub, hnd, hiff, fun x hx => hx, fun _ hc => hc⟩
  | succ fuel ih =>
    intro chain seen hne hsub hnd hiff
    cases chain with
    | nil => exact absurd rfl hne
    | cons h rest =>
      rcases backWalk_step_cases db fuel h rest seen with
        ⟨rid, p, hrev, hget, hns, hbw⟩ | hbw
      · rw [hbw]
        have hpmem : p ∈ db.observations := List.mem_of_find?_eq_some hget
        have hpid : p.id = rid := by
          have := List.find?_some hget
          simpa using this
        have hpnotchain : p.id ∉ (h :: rest).map (fun o => o.id) :=
          fun hmem => hns ((hiff p.id).1 hmem)
        have hres := ih (p :: h :: rest) (p.id :: seen) (by simp)
          (by
            intro x hx
            rcases List.mem_cons.1 hx with hx | hx
            · rw [hx]; exact hpmem
            · exact hsub x hx)
          (by
            rw [List.map_cons, List.nodup_cons]
            exact ⟨hpnotchain, hnd⟩)
          (by
            intro i
            rw [List.map_cons, List.mem_cons, List.mem_cons]
            exact or_congr Iff.rfl (hiff i))
        obtain ⟨r1, r2, r3, r4, r5, r6⟩ := hres
        refine ⟨r1, r2, r3, r4, ?_, ?_⟩
        · intro x hx
          exact r5 x (List.mem_cons_of_mem _ hx)
        · intro hcoh hch
          apply r6 hcoh
          refine List.Chain'.cons ?_ hch
          constructor
          · rw [hrev, ← hpid]
          · have hh : h ∈ db.observations := hsub h (by simp)
            exact (hcoh p hpmem h hh).2 (by rw [hrev, ← hpid])
      · rw [hbw]
        exact ⟨hne, hsub, hnd, hiff, fun x hx => hx, fun _ hc => hc⟩

lemma forWalk_inv (db : Db) :
    ∀ (fuel : Nat) (chain : List Observation) (seen : List String),
      chain ≠ [] →
      (∀ x ∈ chain, x ∈ db.observations) →
      ((chain.map (fun o => o.id)).Nodup) →
      (∀ i, i ∈ chain.map (fun o => o.id) ↔ i ∈ seen) →
      ((ObservationRepository.forWalk db fuel chain seen).1 ≠ []
      ∧ (∀ x ∈ (ObservationRepository.forWalk db fuel chain seen).1, x ∈ db.observations)
      ∧ (((ObservationRepository.forWalk db fuel chain seen).1.map (fun o => o.id)).Nodup)
      ∧ (∀ i, i ∈ (ObservationRepository.forWalk db fuel chain seen).1.map (fun o => o.id) ↔
          i ∈ (ObservationRepository.forWalk db fuel chain seen).2)
      ∧ (∀ x ∈ chain, x ∈ (ObservationRepository.forWalk db fuel chain seen).1)
      ∧ (lineageCoherent db → List.Chain' lineageAdj chain →
          List.Chain' lineageAdj (ObservationRepository.forWalk db fuel chain seen).1)) := by
  intro fuel
  induction fuel with
  | zero =>
    intro chain seen hne hsub hnd hiff
    exact ⟨hne, hsub, hnd, hiff, fun x hx => hx, fun _ hc => hc⟩
  | succ fuel ih =>
    intro chain seen hne hsub hnd hiff
    rcases forWalk_step_cases db fuel chain seen with
      ⟨t, nid, nx, hlast, hsup, hget, hns, hfw⟩ | hfw
    · rw [hfw]
      have htmem : t ∈ chain := mem_of_getLast?_eq hlast
      have htdb : t ∈ db.observations := hsub t htmem
      have hnxmem : nx ∈ db.observations := List.mem_of_find?_eq_some hget
      have hnxid : nx.id = nid := by
        have := List.find?_some hget
        simpa using this
      have hnxnotchain : nx.id ∉ chain.map (fun o => o.id) :=
        fun hmem => hns ((hiff nx.id).1 hmem)
      have hres := ih (chain ++ [nx]) (nx.id :: seen) (by simp)
        (by
          intro x hx
          rcases List.mem_append.1 hx with hx | hx
          · exact hsub x hx
          · rw [List.mem_singleton.1 hx]
            exact hnxmem)
        (by
          rw [List.map_append]
          apply List.Nodup.append hnd (by simp)
          intro x hx1 hx2
          simp only [List.map_cons, List.map_nil, List.mem_singleton] at hx2
          rw [hx2] at hx1
          exact hnxnotchain hx1)
        (by
          intro i
          simp only [List.map_append, List.map_cons, List.map_nil, List.mem_append,
            List.mem_cons, List.not_mem_nil, or_false]
          constructor
          · intro hcase
            rcases hcase with hcase | hcase
            · exact Or.inr ((hiff i).1 hcase)
            · exact Or.inl hcase
          · intro hcase
            rcases hcase with hcase | hcase
            · exact Or.inr hcase
            · exact Or.inl ((hiff i).2 hcase))
      obtain ⟨r1, r2, r3, r4, r5, r6⟩ := hres
      refine ⟨r1, r2, r3, r4, ?_, ?_⟩
      · intro x hx
        exact r5 x (List.mem_append_left _ hx)
      · intro hcoh hch
        apply r6 hcoh
        rw [List.chain'_append]
        refine ⟨hch, List.chain'_singleton nx, ?_⟩
        intro x hx y hy
        rw [hlast] at hx
        rw [List.head?_cons] at hy
        have hxt : t = x := by simpa using hx
        have hynx : nx = y := by simpa using hy
        rw [← hxt, ← hynx]
        constructor
        · exact (hcoh t htdb nx hnxmem).1 (by rw [hsup, ← hnxid])
        · rw [hsup, ← hnxid]
    · rw [hfw]
      exact ⟨hne, hsub, hnd, hiff, fun x hx => hx, fun _ hc => hc⟩

end OpenMem

namespace OpenMem

lemma seenMeasure_lt (db : Db) (i : String) (seen : List String)
    (hmem : i ∈ db.observations.map (fun o => o.id)) (hni : i ∉ seen) :
    seenMeasure db (i :: seen) < seenMeasure db seen := by
  unfold seenMeasure
  have hpred : ∀ x ∈ (db.observations.map (fun o => o.id)).dedup,
      (decide (x ∉ i :: seen)) = ((decide (x ∉ seen)) && !(x = i : Bool)) := by
    intro x _
    by_cases h1 : x = i <;> by_cases h2 : x ∈ seen <;> simp [h1, h2]
  rw [List.filter_congr hpred]
  rw [← List.filter_filter, List.filter_comm]
  apply List.length_filter_lt_length_iff_exists.2
  refine ⟨i, ?_, ?_⟩
  · rw [List.mem_filter]
    exact ⟨List.mem_dedup.2 hmem, by simp [hni]⟩
  · simp

lemma seenMeasure_lt_len (db : Db) (seen : List String) (i : String)
    (hmem : i ∈ db.observations.map (fun o => o.id)) (his : i ∈ seen) :
    seenMeasure db seen < db.observations.length := by
  unfold seenMeasure
  have h1 : ((db.observations.map (fun o => o.id)).dedup.filter
      (fun x => decide (x ∉ seen))).length <
      (db.observations.map (fun o => o.id)).dedup.length :=
    List.length_filter_lt_length_iff_exists.2 ⟨i, List.mem_dedup.2 hmem, by simp [his]⟩
  have h2 := (List.dedup_sublist (db.observations.map (fun o => o.id))).length_le
  rw [List.length_map] at h2
  omega

lemma backWalk_fuel (db : Db) :
    ∀ (fuel extra : Nat) (chain : List Observation) (seen : List String),
      seenMeasure db seen < fuel →
      ObservationRepository.backWalk db (fuel + extra) chain seen =
        ObservationRepository.backWalk db fuel chain seen := by
  intro fuel
  induction fuel with
  | zero =>
    intro extra chain seen h
    exact absurd h (Nat.not_lt_zero _)
  | succ fuel ih =>
    intro extra chain seen h
    have hadd : (fuel + 1) + extra = (fuel + extra) + 1 := by omega
    rw [hadd]
    rw [ObservationRepository.backWalk.eq_2, ObservationRepository.backWalk.eq_2]
    cases chain with
    | nil => rfl
    | cons hd rest =>
      simp only [List.head?_cons]
      cases hrev : hd.revisionOf with
      | none => rfl
      | some rid =>
        by_cases hemp : rid.isEmpty = true
        · simp only [hemp, if_true]
        · have hempf : rid.isEmpty = false := by
            cases hb : rid.isEmpty
            · rfl
            · exact absurd hb hemp
          simp only [hempf, Bool.false_eq_true, if_false]
          cases hget : ObservationRepository.getByIdIncludingArchived db rid with
          | none => rfl
          | some p =>
            dsimp only
            by_cases hsn : p.id ∈ seen
            · simp only [if_pos hsn]
            · simp only [if_neg hsn]
              have hpmem : p ∈ db.observations := List.mem_of_find?_eq_some hget
              have hlt := seenMeasure_lt db p.id seen (List.mem_map.2 ⟨p, hpmem, rfl⟩) hsn
              exact ih extra (p :: hd :: rest) (p.id :: seen) (by omega)

lemma forWalk_fuel (db : Db) :
    ∀ (fuel extra : Nat) (chain : List Observation) (seen : List String),
      seenMeasure db seen < fuel →
      ObservationRepository.forWalk db (fuel + extra) chain seen =
        ObservationRepository.forWalk db fuel chain seen := by
  intro fuel
  induction fuel with
  | zero =>
    intro extra chain seen h
    exact absurd h (Nat.not_lt_zero _)
  | succ fuel ih =>
    intro extra chain seen h
    have hadd : (fuel + 1) + extra = (fuel + extra) + 1 := by omega
    rw [hadd]
    rw [ObservationRepository.forWalk.eq_2, ObservationRepository.forWalk.eq_2]
    cases hlast : chain.getLast? with
    | none => rfl
    | some t =>
      dsimp only
      cases hsup : t.supersededBy with
      | none => rfl
      | some nid =>
        by_cases hemp : nid.isEmpty = true
        · simp only [hemp, if_true]
        · have hempf : nid.isEmpty = false := by
            cases hb : nid.isEmpty
            · rfl
            · exact absurd hb hemp
          simp only [hempf, Bool.false_eq_true, if_false]
          cases hget : ObservationRepository.getByIdIncludingArchived db nid with
          | none => rfl
          | some nx =>
            dsimp only
            by_cases hsn : nx.id ∈ seen
            · simp only [if_pos hsn]
            · simp only [if_neg hsn]
              have hnxmem : nx ∈ db.observations := List.mem_of_find?_eq_some hget
              have hlt := seenMeasure_lt db nx.id seen (List.mem_map.2 ⟨nx, hnxmem, rfl⟩) hsn
              exact ih extra (chain ++ [nx]) (nx.id :: seen) (by omega)

/-- C4 (amended): getLineage returns the empty sequence for an absent id;
for a stored id the returned chain contains the row with that id, its
sequence of ids is duplicate-free, every adjacent pair satisfies both
next.revisionOf = prev.id and prev.supersededBy = next.id provided the
lineage pointers of the database are coherent in both directions, and the
traversal terminates even on cyclic pointers: any loop bound of at least
the row count computes the same chain. -/
theorem claim_C4_getLineage_chain (db : Db) (id : String) :
    (ObservationRepository.getByIdIncludingArchived db id = none →
      ObservationRepository.getLineage db id = [])
  ∧ (∀ a, ObservationRepository.getByIdIncludingArchived db id = some a →
      a ∈ ObservationRepository.getLineage db id ∧ a.id = id)
  ∧ (((ObservationRepository.getLineage db id).map (fun o => o.id)).Nodup)
  ∧ (lineageCoherent db → List.Chain' lineageAdj (ObservationRepository.getLineage db id))
  ∧ (∀ extra, ObservationRepository.getLineageFuel db id (db.observations.length + extra) =
      ObservationRepository.getLineage db id) := by
  cases hanchor : ObservationRepository.getByIdIncludingArchived db id with
  | none =>
    have hlin : ObservationRepository.getLineage db id = [] := by
      unfold ObservationRepository.getLineage ObservationRepository.getLineageFuel
      rw [hanchor]
    refine ⟨fun _ => hlin, ?_, ?_, ?_, ?_⟩
    · intro a ha
      exact absurd ha (by simp)
    · rw [hlin]
      simp
    · intro _
      rw [hlin]
      exact List.chain'_nil
    · intro extra
      unfold ObservationRepository.getLineage ObservationRepository.getLineageFuel
      rw [hanchor]
  | some a =>
    have hamem : a ∈ db.observations := List.mem_of_find?_eq_some hanchor
    have haid : a.id = id := by
      have := List.find?_some hanchor
      simpa using this
    have hlin : ObservationRepository.getLineage db id =
        (ObservationRepository.forWalk db db.observations.length
          (ObservationRepository.backWalk db db.observations.length [a] [a.id]).1
          (ObservationRepository.backWalk db db.observations.length [a] [a.id]).2).1 := by
      unfold ObservationRepository.getLineage ObservationRepository.getLineageFuel
      rw [hanchor]
    obtain ⟨b1, b2, b3, b4, b5, b6⟩ := backWalk_inv db db.observations.length [a] [a.id]
      (by simp)
      (by
        intro x hx
        rw [List.mem_singleton.1 hx]
        exact hamem)
      (by simp)
      (by intro i; simp)
    obtain ⟨f1, f2, f3, f4, f5, f6⟩ := forWalk_inv db db.observations.length
      (ObservationRepository.backWalk db db.observations.length [a] [a.id]).1
      (ObservationRepository.backWalk db db.observations.length [a] [a.id]).2 b1 b2 b3 b4
    refine ⟨?_, ?_, ?_, ?_, ?_⟩
    · intro hnone
      exact absurd hnone (by simp)
    · intro a2 ha2
      have ha2a : a2 = a := (Option.some.inj ha2).symm
      rw [ha2a, hlin]
      exact ⟨f5 a (b5 a (by simp)), haid⟩
    · rw [hlin]
      exact f3
    · intro hcoh
      rw [hlin]
      exact f6 hcoh (b6 hcoh (List.chain'_singleton a))
    · intro extra
      have hidmem : a.id ∈ db.observations.map (fun o => o.id) :=
        List.mem_map.2 ⟨a, hamem, rfl⟩
      have hm1 : seenMeasure db [a.id] < db.observations.length :=
        seenMeasure_lt_len db [a.id] a.id hidmem (by simp)
      have haidseen : a.id ∈ (ObservationRepository.backWalk db
          db.observations.length [a] [a.id]).2 :=
        (b4 a.id).1 (List.mem_map.2 ⟨a, b5 a (by simp), rfl⟩)
      have hm2 : seenMeasure db (ObservationRepository.backWalk db
          db.observations.length [a] [a.id]).2 < db.observations.length :=
        seenMeasure_lt_len db _ a.id hidmem haidseen
      unfold ObservationRepository.getLineage ObservationRepository.getLineageFuel
      rw [hanchor]
      dsimp only
      rw [backWalk_fuel db db.observations.length extra [a] [a.id] hm1]
      rw [forWalk_fuel db db.observations.length extra
        (ObservationRepository.backWalk db db.observations.length [a] [a.id]).1
        (ObservationRepository.backWalk db db.observations.length [a] [a.id]).2 hm2]

/-- Witness for C4 at the single-row fixture: its lineage chain satisfies the
adjacency shape under the (trivially) coherent fixture database. -/
theorem claim_C4_witness :
    List.Chain' lineageAdj (ObservationRepository.getLineage exDb1 "o1") :=
  (claim_C4_getLineage_chain exDb1 "o1").2.2.2.1 (by decide)

/-- Counterexample for C4 as stated: importObservation stores no forward
pointer, so the database holding a and b with b.revisionOf = a has the id b
present, yet the chain [a, b] returned by getLineage violates
prev.supersededBy = next.id on its only adjacent pair. -/
theorem claim_C4_counterexample :
    exDb4.observations.map (fun o => o.id) = ["a", "b"]
  ∧ (ObservationRepository.getLineage exDb4 "b").map (fun o => o.id) = ["a", "b"]
  ∧ ¬ List.Chain' lineageAdj (ObservationRepository.getLineage exDb4 "b") := by
  refine ⟨by decide, by decide, ?_⟩
  have hl : ObservationRepository.getLineage exDb4 "b" = [exObs4a, exObs4b] := by decide
  rw [hl, List.chain'_pair]
  intro hadj
  exact absurd hadj.2 (by decide)

end OpenMem
